import Mathlib

/-!
Verification development for the traffic allocation and congestion analysis
engine of the switch-topology-graph repository.

The Python sources are shallowly embedded: Python dicts become association
lists over `String` keys, real-valued quantities become `ℚ` (the heuristic
allocators only use `+`, `-`, `min` and division by a positive integer, so
rational arithmetic models the float computations exactly up to rounding
noise, which the spec covers by its epsilon tolerances), and the external
pulp LP solver is modelled by its contract (a separate, clearly marked
definition).  Rounding of reported totals to two decimal places
(Python `round(x, 2)`) is presentation only and is not modelled; all totals
here are the exact sums the source rounds.
-/

set_option maxRecDepth 4000

abbrev Str := String

/-- Python dict lookup returning an `Option`: first matching key of an
association list, as for a Python dict (which cannot hold duplicate keys). -/
def alookup {α : Type} : List (Str × α) → Str → Option α
  | [], _ => none
  | kv :: rest, k => if kv.1 = k then some kv.2 else alookup rest k

/-- Python `dict.get(k, d)`: lookup with default. -/
def aget {α : Type} (m : List (Str × α)) (k : Str) (d : α) : α :=
  (alookup m k).getD d

/-- Numeric `dict.get(k, 0)`. -/
def getQ (m : List (Str × ℚ)) (k : Str) : ℚ := aget m k 0

/-- Python `dict[k] -= v` (first matching entry is decremented; dicts hold
each key once, and the simulators only subtract from keys that are present
because the clamped send amount is positive only when `get(k, 0) > 0`). -/
def updSub : List (Str × ℚ) → Str → ℚ → List (Str × ℚ)
  | [], _, _ => []
  | kv :: rest, k, v =>
    if kv.1 = k then (kv.1, kv.2 - v) :: rest else kv :: updSub rest k v

/-- Remove the first entry with the given key (helper for sum bookkeeping). -/
def eraseKey : List (Str × ℚ) → Str → List (Str × ℚ)
  | [], _ => []
  | kv :: rest, k => if kv.1 = k then rest else kv :: eraseKey rest k

/-- Python `sum(dict.values())`. -/
def sumVals (m : List (Str × ℚ)) : ℚ := (m.map (·.2)).sum

/-- All stored values are non-negative (a validity property of capacity and
demand maps: they are Gbps-like rates). -/
def NonnegVals (m : List (Str × ℚ)) : Prop := ∀ kv ∈ m, 0 ≤ kv.2

instance (m : List (Str × ℚ)) : Decidable (NonnegVals m) := by
  unfold NonnegVals
  infer_instance

/-- The master JSON scenario file consumed by every allocator
(see spec section 6 and the `problem_data.get(...)` extractions at the top
of each solver/simulator). -/
structure ProblemData where
  endhosts : List Str
  egress_interfaces : List Str
  destinations : List Str
  paths_per_endhost : List (Str × List Str)
  path_to_egress_mapping : List (Str × Str)
  reachability : List (Str × List Str)
  endhost_uplinks : List (Str × ℚ)
  egress_capacities : List (Str × ℚ)
  egress_costs : List (Str × ℚ)
  egress_latencies : List (Str × ℚ)
  egress_types : List (Str × Str)
  traffic_per_destination : List (Str × ℚ)
deriving DecidableEq

/-- A candidate path record, as built by the behavioral simulators:
a dict with the path, its egress, and the latency of that egress.
A missing latency (float infinity in the source) is `none`, which compares
greater than every `some` value. -/
structure PathInfo where
  path : Str
  egress : Str
  latency : Option ℚ
deriving DecidableEq

/-- Strict latency comparison with `none` as plus infinity
(float infinity in the source). -/
def latLtB : Option ℚ → Option ℚ → Bool
  | some a, some b => a < b
  | some _, none => true
  | none, _ => false

/-- Non-strict latency comparison with `none` as plus infinity. -/
def latLeB : Option ℚ → Option ℚ → Bool
  | _, none => true
  | none, some _ => false
  | some a, some b => a ≤ b

/-- Python min over candidate paths keyed by latency: CPython `min` keeps
the first element whose key is minimal, replacing only on strictly smaller
keys. -/
def minByLat (p : PathInfo) (rest : List PathInfo) : PathInfo :=
  rest.foldl (fun best q => if latLtB q.latency best.latency then q else best) p

/-- Insert while keeping the list sorted by latency; an element goes before
the first element of greater-or-equal latency, which makes the resulting
sort stable like Python `sorted`. -/
def orderedInsertLat (x : PathInfo) : List PathInfo → List PathInfo
  | [] => [x]
  | y :: ys => if latLeB x.latency y.latency then x :: y :: ys else y :: orderedInsertLat x ys

/-- Python sorted over candidate paths keyed by latency (stable, ascending). -/
def sortByLat : List PathInfo → List PathInfo
  | [] => []
  | x :: xs => orderedInsertLat x (sortByLat xs)

/-- Candidate paths of a (host, destination) pair in
`run_all_scenarios_final.py` / `model_eval/run_all_scenarios.py`
(`run_behavioral_sim`): the host's paths whose egress exists (Python
truthiness: `if egress` rejects `None` and the empty string) and reaches
the destination. -/
def possiblePaths (pd : ProblemData) (h d : Str) : List PathInfo :=
  (aget pd.paths_per_endhost h []).filterMap fun path =>
    match alookup pd.path_to_egress_mapping path with
    | none => none
    | some eg =>
      if eg ≠ "" ∧ d ∈ aget pd.reachability eg [] then
        some ⟨path, eg, alookup pd.egress_latencies eg⟩
      else none

/-- Candidate paths in `run_all_scenarios_thundering_herd.py`
(`run_behavioral_sim`): as `possiblePaths`, but when `use_transit_links`
is false a path whose egress has type `"transit"` is skipped. -/
def possiblePathsR1 (pd : ProblemData) (useTransit : Bool) (h d : Str) : List PathInfo :=
  (aget pd.paths_per_endhost h []).filterMap fun path =>
    match alookup pd.path_to_egress_mapping path with
    | none => none
    | some eg =>
      if eg ≠ "" ∧ d ∈ aget pd.reachability eg [] then
        if useTransit = false ∧ alookup pd.egress_types eg = some "transit" then none
        else some ⟨path, eg, alookup pd.egress_latencies eg⟩
      else none

/-- Candidate `(path, egress)` pairs in `fair_share_simulator.py`
(`available_paths`). -/
def availablePathsFs (pd : ProblemData) (h d : Str) : List (Str × Str) :=
  (aget pd.paths_per_endhost h []).filterMap fun path =>
    match alookup pd.path_to_egress_mapping path with
    | none => none
    | some eg =>
      if eg ≠ "" ∧ d ∈ aget pd.reachability eg [] then some (path, eg) else none

/-- One row of the produced traffic allocation.  The source stores the
row under the string key `h + "_" + path + "_to_" + d` (adding to any
existing value); we keep the fields and also record the egress whose
remaining-capacity counter was decremented, which by construction is the
egress the path maps to. -/
structure AllocEntry where
  host : Str
  path : Str
  egress : Str
  dest : Str
  amount : ℚ
deriving DecidableEq

/-- Mutable state of one heuristic simulation run: the shared
`rem_uplink` / `rem_egress` counters and the allocation built so far. -/
structure SimState where
  remU : List (Str × ℚ)
  remE : List (Str × ℚ)
  alloc : List AllocEntry
deriving DecidableEq

def initState (pd : ProblemData) : SimState :=
  { remU := pd.endhost_uplinks, remE := pd.egress_capacities, alloc := [] }

/-- One send attempt, shared verbatim by all heuristic allocators:
`sent = min(tpp, rem_uplink.get(h, 0), rem_egress.get(egress, 0))`, and on
`sent > 0` record the flow and decrement both counters. -/
def sendOne (h pa eg d : Str) (tpp : ℚ) (st : SimState) : SimState :=
  let sent := min tpp (min (getQ st.remU h) (getQ st.remE eg))
  if 0 < sent then
    { remU := updSub st.remU h sent
      remE := updSub st.remE eg sent
      alloc := st.alloc ++ [⟨h, pa, eg, d, sent⟩] }
  else st

inductive Mode where
  | thunderingHerd
  | fairShare
deriving DecidableEq

/-- Processing of one (host, destination) pair in
`run_all_scenarios_final.py` / `model_eval` `run_behavioral_sim`:
thundering-herd mode uses only the single lowest-latency candidate,
fair-share mode uses every candidate; each used path gets
`demand / len(paths_to_use)` clamped by the shared counters. -/
def processPairR3 (pd : ProblemData) (mode : Mode) (h d : Str) (dem : ℚ)
    (st : SimState) : SimState :=
  match possiblePaths pd h d with
  | [] => st
  | p0 :: rest =>
    let use := match mode with
      | .thunderingHerd => [minByLat p0 rest]
      | .fairShare => p0 :: rest
    let tpp := dem / (use.length : ℚ)
    use.foldl (fun s q => sendOne h q.path q.egress d tpp s) st

/-- The sorted greedy fill of the round-1 thundering herd: walk the
latency-sorted candidates, stop once the remaining demand is at most
`1e-6`, send `min(remaining, rem_uplink, rem_egress)` on each path and
subtract it from the remaining demand. -/
def fillSorted (h d : Str) : List PathInfo → ℚ → SimState → SimState
  | [], _, st => st
  | q :: rest, remaining, st =>
    if remaining ≤ 1 / 1000000 then st
    else
      let canSend := min remaining (min (getQ st.remU h) (getQ st.remE q.egress))
      fillSorted h d rest (if 0 < canSend then remaining - canSend else remaining)
        (sendOne h q.path q.egress d remaining st)

/-- Processing of one (host, destination) pair in
`run_all_scenarios_thundering_herd.py`. -/
def processPairR1 (pd : ProblemData) (useTransit : Bool) (mode : Mode) (h d : Str)
    (dem : ℚ) (st : SimState) : SimState :=
  match possiblePathsR1 pd useTransit h d with
  | [] => st
  | p0 :: rest =>
    match mode with
    | .thunderingHerd => fillSorted h d (sortByLat (p0 :: rest)) dem st
    | .fairShare =>
      let tpp := dem / ((p0 :: rest).length : ℚ)
      (p0 :: rest).foldl (fun s q => sendOne h q.path q.egress d tpp s) st

/-- Processing of one (host, destination) pair in
`fair_share_simulator.py`: every available path gets
`traffic_to_send / num_paths` clamped by the shared counters (the
standalone simulator has no latency lookup and no mode switch). -/
def processPairFs (pd : ProblemData) (h d : Str) (dem : ℚ) (st : SimState) : SimState :=
  match availablePathsFs pd h d with
  | [] => st
  | p0 :: rest =>
    let tpp := dem / (((p0 :: rest).length : ℕ) : ℚ)
    (p0 :: rest).foldl (fun s pe => sendOne h pe.1 pe.2 d tpp s) st

def hostFlow (al : List AllocEntry) (h : Str) : ℚ :=
  (al.map fun a => if a.host = h then a.amount else 0).sum

def egFlowField (al : List AllocEntry) (e : Str) : ℚ :=
  (al.map fun a => if a.egress = e then a.amount else 0).sum

/-- Total flow routed through paths mapped to egress `e`
(the sum ranged over by the egress capacity invariant of the spec). -/
def egFlowMap (pd : ProblemData) (al : List AllocEntry) (e : Str) : ℚ :=
  (al.map fun a => if alookup pd.path_to_egress_mapping a.path = some e then a.amount else 0).sum

def destFlow (al : List AllocEntry) (d : Str) : ℚ :=
  (al.map fun a => if a.dest = d then a.amount else 0).sum

def allocTotal (al : List AllocEntry) : ℚ := (al.map (·.amount)).sum

/-- Result record of a behavioral simulation (`total_sent_traffic`,
`total_unsent_traffic`, the allocation, and the final counters; the source
also derives `total_cost` from the allocation, which no claim uses). -/
structure SimOutput where
  finState : SimState
  totalSent : ℚ
  totalUnsent : ℚ
deriving DecidableEq

/-- The host-demand preprocessing shared by all heuristics:
`host_demands[host][dest] = demand * (rem_uplink.get(host, 0) / total_uplink)`
computed before any counter is mutated. -/
def hostDemandShare (pd : ProblemData) (tot : ℚ) (h : Str) (dem : ℚ) : ℚ :=
  dem * (getQ pd.endhost_uplinks h / tot)

/-- Function `run_behavioral_sim` of `switch_eval_round3/run_all_scenarios_final.py`;
`model_eval/run_all_scenarios.py` contains the identical function.  Hosts
are processed in scenario order and, per host, destinations in
`traffic_per_destination` order.  Returns `none` for the
total-uplink-is-zero error-dict early return. -/
def run_behavioral_sim (pd : ProblemData) (mode : Mode) : Option SimOutput :=
  let tot := sumVals pd.endhost_uplinks
  if tot = 0 then none
  else
    let fin := pd.endhosts.foldl (fun st h =>
      pd.traffic_per_destination.foldl (fun st2 dd =>
        processPairR3 pd mode h dd.1 (hostDemandShare pd tot h dd.2) st2) st)
      (initState pd)
    some { finState := fin
           totalSent := allocTotal fin.alloc
           totalUnsent := sumVals pd.traffic_per_destination - allocTotal fin.alloc }

/-- Function `run_behavioral_sim` of
`switch_eval_round1/run_all_scenarios_thundering_herd.py` (with the
`use_transit_links` switch and the sorted spillover loop). -/
def run_behavioral_sim_r1 (pd : ProblemData) (mode : Mode) (useTransit : Bool) :
    Option SimOutput :=
  let tot := sumVals pd.endhost_uplinks
  if tot = 0 then none
  else
    let fin := pd.endhosts.foldl (fun st h =>
      pd.traffic_per_destination.foldl (fun st2 dd =>
        processPairR1 pd useTransit mode h dd.1 (hostDemandShare pd tot h dd.2) st2) st)
      (initState pd)
    some { finState := fin
           totalSent := allocTotal fin.alloc
           totalUnsent := sumVals pd.traffic_per_destination - allocTotal fin.alloc }

/-- Function `simulate_fair_share` of `fair_share_simulator.py`.  Returns `none`
for the `if total_uplink_cap == 0: return None` early return; the reported
`unsent_traffic_due_to_congestion` is `total_demand - total_sent`. -/
def simulate_fair_share (pd : ProblemData) : Option SimOutput :=
  let tot := sumVals pd.endhost_uplinks
  if tot = 0 then none
  else
    let fin := pd.endhosts.foldl (fun st h =>
      pd.traffic_per_destination.foldl (fun st2 dd =>
        processPairFs pd h dd.1 (hostDemandShare pd tot h dd.2) st2) st)
      (initState pd)
    some { finState := fin
           totalSent := allocTotal fin.alloc
           totalUnsent := sumVals pd.traffic_per_destination - allocTotal fin.alloc }

/-! ### The allocation-key string convention

Python strings are embedded as `List Char` (`String.data`); the encoder is
the f-string of `lp_model_costs.py` and the simulators, the parser is the
`key.split('_to_')` / `split('_', 1)` logic of `performance_analyzer.py`
and `analyze_performance_of_result`. -/

/-- The characters of the separator substring. -/
def sepToList : List Char := ['_', 't', 'o', '_']

/-- Does the second list start with the first? -/
def startsWithSeq : List Char → List Char → Bool
  | [], _ => true
  | _ :: _, [] => false
  | a :: as, b :: bs => a = b && startsWithSeq as bs

/-- Does the pattern occur anywhere in the list? -/
def containsSeq (sep : List Char) : List Char → Bool
  | [] => startsWithSeq sep []
  | c :: rest => startsWithSeq sep (c :: rest) || containsSeq sep rest

/-- Split at the first occurrence of `sep`: returns the part before and the
part after, or `none` when `sep` does not occur (for Python `s.split(sep)`,
a `some` result gives `parts[0]` and the tail the later parts are cut from). -/
def splitFirstSeq (sep : List Char) : List Char → Option (List Char × List Char)
  | [] => none
  | c :: rest =>
    if startsWithSeq sep (c :: rest) then some ([], (c :: rest).drop sep.length)
    else
      match splitFirstSeq sep rest with
      | none => none
      | some (a, b) => some (c :: a, b)

/-- The f-string of host, path and destination building an allocation key:
host, underscore, path, separator, destination. -/
def encodeKey (h p d : List Char) : List Char := h ++ '_' :: (p ++ sepToList ++ d)

/-- The key parser of `performance_analyzer.py`:
`parts = key.split('_to_')`; host/path from `parts[0].split('_', 1)`,
destination from `parts[1]` (which Python cuts at the *second* `_to_`
occurrence when one exists).  `none` models the `IndexError` raised when a
part is missing (round 3 indexes unconditionally; `performance_analyzer.py`
warns and skips, likewise failing to recover the triple). -/
def parseKey (key : List Char) : Option (List Char × List Char × List Char) :=
  match splitFirstSeq sepToList key with
  | none => none
  | some (hp, rest) =>
    let d := match splitFirstSeq sepToList rest with
      | none => rest
      | some (d1, _) => d1
    match splitFirstSeq ['_'] hp with
    | none => none
    | some (h, p) => some (h, p, d)

/-- The path-id extraction (split the key at the first occurrence of the
separator, then take what follows the first underscore of the prefix) used for
per-egress traffic aggregation (`analyze_performance_of_result` and the
`total_cost` computation of the simulators). -/
def keyPathId (key : List Char) : Option (List Char) :=
  let hp := match splitFirstSeq sepToList key with
    | some (a, _) => a
    | none => key
  match splitFirstSeq ['_'] hp with
  | some (_, rest) => some rest
  | none => none

/-! ### The performance analyzer -/

/-- Python defaultdict accumulation: add `v` at key `k`. -/
def addTo : List (Str × ℚ) → Str → ℚ → List (Str × ℚ)
  | [], k, v => [(k, v)]
  | kv :: rest, k, v => if kv.1 = k then (kv.1, kv.2 + v) :: rest else kv :: addTo rest k v

/-- The `traffic_on_egress` aggregation of `analyze_performance_of_result`:
parse each allocation key, map the path id to its egress (silently skipping
keys whose path id has no egress mapping — Python `if egress:` also skips a
falsy empty-string egress), and sum the traffic.  `none` models the
`IndexError` on a key without an underscore before its first `_to_`. -/
def trafficAgg (pd : ProblemData) (alloc : List (Str × ℚ)) : Option (List (Str × ℚ)) :=
  alloc.foldl (fun acc kv =>
    match acc with
    | none => none
    | some m =>
      match keyPathId kv.1.data with
      | none => none
      | some pidChars =>
        match alookup pd.path_to_egress_mapping (String.mk pidChars) with
        | none => some m
        | some eg => if eg = "" then some m else some (addTo m eg kv.2)) (some [])

structure UtilEntry where
  traffic : ℚ
  capacity : ℚ
  utilization_percent : ℚ
deriving DecidableEq

/-- Utilization: traffic over capacity times 100 when capacity is positive,
else 0 (the guarded Python conditional expression). -/
def utilizationPercent (traffic capacity : ℚ) : ℚ :=
  if 0 < capacity then traffic / capacity * 100 else 0

/-- Function `analyze_performance_of_result` (round 1 and round 3 runners; the same
utilization computation is printed by `performance_analyzer.py`): for every
declared egress capacity, report the aggregated traffic, the capacity, and
the guarded utilization percentage.  The source rounds the reported numbers
to two decimals for display; the exact values are modelled.  The source
also passes an incoming error dict through untouched; this embedding takes
the allocation itself, so only the analysis branch is modelled. -/
def analyze_performance_of_result (pd : ProblemData) (alloc : List (Str × ℚ)) :
    Option (List (Str × UtilEntry)) :=
  match trafficAgg pd alloc with
  | none => none
  | some tA => some (pd.egress_capacities.map fun ec =>
      (ec.1, { traffic := getQ tA ec.1
               capacity := ec.2
               utilization_percent := utilizationPercent (getQ tA ec.1) ec.2 }))

/-! ### The LP cost model (pre-solve structure)

The variable-key enumeration and the early-return branches are code of
`lp_model_costs.py` and of `solve_cost_lp` in the round-1/round-3 runners;
everything after `prob.solve()` depends on the external pulp solver, which
is modelled by its contract further below. -/

/-- The `x_vars_keys` enumeration, parameterized by the egress filter
(`egress not in E` in round 3, `egress not in Cost` in
`lp_model_costs.py` and round 1); `if not egress` also drops a path whose
egress id is the falsy empty string. -/
def xVarsKeysWith (pd : ProblemData) (egOk : Str → Bool) : List (Str × Str × Str) :=
  pd.endhosts.flatMap fun h =>
    (aget pd.paths_per_endhost h []).flatMap fun p =>
      match alookup pd.path_to_egress_mapping p with
      | none => []
      | some eg =>
        if eg ≠ "" ∧ egOk eg = true then
          (aget pd.reachability eg []).filterMap fun d =>
            if d ∈ pd.destinations then some (h, p, d) else none
        else []

/-- Variable keys of `solve_cost_lp` / `solve_latency_lp` in round 3
(egress must be a declared egress interface). -/
def xVarsKeysR3 (pd : ProblemData) : List (Str × Str × Str) :=
  xVarsKeysWith pd fun eg => decide (eg ∈ pd.egress_interfaces)

/-- Variable keys of `solve_adversarial_path_selection` in
`lp_model_costs.py` (egress must have a declared cost). -/
def xVarsKeysCost (pd : ProblemData) : List (Str × Str × Str) :=
  xVarsKeysWith pd fun eg => (alookup pd.egress_costs eg).isSome

/-- Outcome of `solve_adversarial_path_selection` up to the solver call:
the input-validation early return, the no-variables early return (status
string, objective 0, empty allocation), or the solver invocation on the
enumerated variables. -/
inductive AdvLpResult where
  | inputError : AdvLpResult
  | noVariables (status : Str) (objectiveValue : ℚ)
      (allocation : List ((Str × Str × Str) × ℚ)) : AdvLpResult
  | solverInvoked (vars : List (Str × Str × Str)) : AdvLpResult
deriving DecidableEq

/-- Function `solve_adversarial_path_selection` of `lp_model_costs.py` (pre-solve
structure; the `optimization_goal` argument only chooses the objective
sense handed to the solver). -/
def solve_adversarial_path_selection (pd : ProblemData) : AdvLpResult :=
  if pd.endhosts = [] ∨ pd.egress_interfaces = [] ∨ pd.destinations = [] ∨
      pd.traffic_per_destination = [] then .inputError
  else if xVarsKeysCost pd = [] then .noVariables "No_Variables" 0 []
  else .solverInvoked (xVarsKeysCost pd)

/-- Outcome of the round-3 `solve_cost_lp` up to the solver call: either
the no-valid-variables error dict or the solver invocation; a `report`
value (the post-solve dict with
`lp_status`, `total_cost` and the allocation) can only arise from a solver
run. -/
inductive R3LpOutcome where
  | error (msg : Str) : R3LpOutcome
  | report (scenarioName lpStatus : Str) (totalCost : ℚ)
      (allocation : List ((Str × Str × Str) × ℚ)) : R3LpOutcome
  | solverInvoked (vars : List (Str × Str × Str)) : R3LpOutcome
deriving DecidableEq

/-- Whether an outcome is a result dict reporting `lp_status` equal to
`"No_Variables"`. -/
def R3LpOutcome.reportsNoVariablesStatus : R3LpOutcome → Bool
  | .report _ st _ _ => st = "No_Variables"
  | _ => false

/-- Function `solve_cost_lp` of `switch_eval_round3/run_all_scenarios_final.py`
(pre-solve structure; the goal string only chooses minimize/maximize).
`solve_latency_lp` and the round-1 `solve_cost_lp` share the identical
early-return branch over the same variable enumeration. -/
def solve_cost_lp (pd : ProblemData) (_goal : Str) : R3LpOutcome :=
  if xVarsKeysR3 pd = [] then .error "No valid variables for LP model could be created."
  else .solverInvoked (xVarsKeysR3 pd)

/-! ### The LP constraints and the solver contract -/

def destSum (keys : List (Str × Str × Str)) (σ : Str × Str × Str → ℚ) (d : Str) : ℚ :=
  (keys.map fun k => if k.2.2 = d then σ k else 0).sum

def hostSum (keys : List (Str × Str × Str)) (σ : Str × Str × Str → ℚ) (h : Str) : ℚ :=
  (keys.map fun k => if k.1 = h then σ k else 0).sum

def egSum (pd : ProblemData) (keys : List (Str × Str × Str)) (σ : Str × Str × Str → ℚ)
    (e : Str) : ℚ :=
  (keys.map fun k => if alookup pd.path_to_egress_mapping k.2.1 = some e then σ k else 0).sum

def totalKeySum (keys : List (Str × Str × Str)) (σ : Str × Str × Str → ℚ) : ℚ :=
  (keys.map σ).sum

/-- The sum of the *extracted* allocation to a destination: the returned
dicts keep only variables with `varValue > 1e-6`. -/
def extractedDestSum (keys : List (Str × Str × Str)) (σ : Str × Str × Str → ℚ)
    (d : Str) : ℚ :=
  (keys.map fun k => if k.2.2 = d ∧ 1 / 1000000 < σ k then σ k else 0).sum

def extractedHostSum (keys : List (Str × Str × Str)) (σ : Str × Str × Str → ℚ)
    (h : Str) : ℚ :=
  (keys.map fun k => if k.1 = h ∧ 1 / 1000000 < σ k then σ k else 0).sum

def extractedEgSum (pd : ProblemData) (keys : List (Str × Str × Str))
    (σ : Str × Str × Str → ℚ) (e : Str) : ℚ :=
  (keys.map fun k =>
    if alookup pd.path_to_egress_mapping k.2.1 = some e ∧ 1 / 1000000 < σ k then σ k else 0).sum

/-- Modelled from the spec: the external pulp LP solver is not part of this
repository.  Per the spec (sections 4.2 and 8), when the solver reports an
`Optimal` status the returned variable values respect the variable lower
bounds and every constraint the code added to the problem.  This predicate
states the constraints built by the cost LPs
(`solve_adversarial_path_selection`, round-1/round-3 `solve_cost_lp`) over
a variable-key list that bound the flow variables: non-negativity,
per-destination exact demand equality, per-host uplink capacity, and
per-egress capacity.  The round-3 variant additionally links binary
link-used variables to traffic with a big-M inequality; that constraint
only restricts the auxiliary binaries and is not needed by any claim, so
it is left out of the contract. -/
def CostLpOptimalSolution (pd : ProblemData) (keys : List (Str × Str × Str))
    (σ : Str × Str × Str → ℚ) : Prop :=
  (∀ k ∈ keys, 0 ≤ σ k) ∧
  (∀ d ∈ pd.destinations, destSum keys σ d = getQ pd.traffic_per_destination d) ∧
  (∀ h ∈ pd.endhosts, hostSum keys σ h ≤ getQ pd.endhost_uplinks h) ∧
  (∀ e ∈ pd.egress_interfaces, egSum pd keys σ e ≤ getQ pd.egress_capacities e)

/-- Modelled from the spec: solver contract for `solve_latency_lp`
(round 3), whose demand constraint is the single aggregate equality
`sum(x) == total_demand` together with the same per-host and per-egress
capacity constraints. -/
def LatencyLpOptimalSolution (pd : ProblemData) (keys : List (Str × Str × Str))
    (σ : Str × Str × Str → ℚ) : Prop :=
  (∀ k ∈ keys, 0 ≤ σ k) ∧
  totalKeySum keys σ = sumVals pd.traffic_per_destination ∧
  (∀ h ∈ pd.endhosts, hostSum keys σ h ≤ getQ pd.endhost_uplinks h) ∧
  (∀ e ∈ pd.egress_interfaces, egSum pd keys σ e ≤ getQ pd.egress_capacities e)

/-! ### Concrete scenarios

`pdSpec` is the two-host test scenario of the spec (section 8): two hosts with
uplink 100, one transit egress (capacity 50, latency 60, cost 10), one
peering egress (capacity 30, latency 15, cost 1), both reaching the single
destination `X` with demand 40. -/

def pdSpec : ProblemData :=
  { endhosts := ["h1", "h2"]
    egress_interfaces := ["eT", "eP"]
    destinations := ["X"]
    paths_per_endhost := [("h1", ["pT1", "pP1"]), ("h2", ["pT2", "pP2"])]
    path_to_egress_mapping := [("pT1", "eT"), ("pP1", "eP"), ("pT2", "eT"), ("pP2", "eP")]
    reachability := [("eT", ["X"]), ("eP", ["X"])]
    endhost_uplinks := [("h1", 100), ("h2", 100)]
    egress_capacities := [("eT", 50), ("eP", 30)]
    egress_costs := [("eT", 10), ("eP", 1)]
    egress_latencies := [("eT", 60), ("eP", 15)]
    egress_types := [("eT", "transit"), ("eP", "peering")]
    traffic_per_destination := [("X", 40)] }

/-- One host with four candidate paths through four egresses of distinct
latencies and ample capacity, demand 80: an even fair-share split places
20 units on every path, including the highest-latency one. -/
def pdFour : ProblemData :=
  { endhosts := ["h1"]
    egress_interfaces := ["e1", "e2", "e3", "e4"]
    destinations := ["X"]
    paths_per_endhost := [("h1", ["p1", "p2", "p3", "p4"])]
    path_to_egress_mapping := [("p1", "e1"), ("p2", "e2"), ("p3", "e3"), ("p4", "e4")]
    reachability := [("e1", ["X"]), ("e2", ["X"]), ("e3", ["X"]), ("e4", ["X"])]
    endhost_uplinks := [("h1", 100)]
    egress_capacities := [("e1", 100), ("e2", 100), ("e3", 100), ("e4", 100)]
    egress_costs := [("e1", 1), ("e2", 1), ("e3", 1), ("e4", 1)]
    egress_latencies := [("e1", 10), ("e2", 20), ("e3", 30), ("e4", 40)]
    egress_types := [("e1", "peering"), ("e2", "peering"), ("e3", "peering"), ("e4", "peering")]
    traffic_per_destination := [("X", 80)] }

/-- A scenario whose only destination is unreachable by the only egress:
no (host, path, destination) variable exists for the cost LPs. -/
def pdNoVars : ProblemData :=
  { endhosts := ["h1"]
    egress_interfaces := ["e1"]
    destinations := ["X"]
    paths_per_endhost := [("h1", ["p1"])]
    path_to_egress_mapping := [("p1", "e1")]
    reachability := [("e1", [])]
    endhost_uplinks := [("h1", 10)]
    egress_capacities := [("e1", 10)]
    egress_costs := [("e1", 1)]
    egress_latencies := [("e1", 5)]
    egress_types := [("e1", "transit")]
    traffic_per_destination := [("X", 5)] }

/-- A scenario whose total endhost uplink capacity is zero. -/
def pdZeroUplink : ProblemData :=
  { endhosts := ["h1", "h2"]
    egress_interfaces := ["e1"]
    destinations := ["X"]
    paths_per_endhost := [("h1", ["p1"]), ("h2", ["p2"])]
    path_to_egress_mapping := [("p1", "e1"), ("p2", "e1")]
    reachability := [("e1", ["X"])]
    endhost_uplinks := [("h1", 0), ("h2", 0)]
    egress_capacities := [("e1", 10)]
    egress_costs := [("e1", 1)]
    egress_latencies := [("e1", 5)]
    egress_types := [("e1", "transit")]
    traffic_per_destination := [("X", 5)] }

/-- A concrete feasible solution of the cost LP over the variable keys of
`pdSpec`: 20 and 10 units from host h1 via transit and peering, 5 and 5 from
host h2, meeting the demand of 40 within every capacity. -/
def sigmaSpec : Str × Str × Str → ℚ := fun k =>
  if k = ("h1", "pT1", "X") then 20
  else if k = ("h1", "pP1", "X") then 10
  else if k = ("h2", "pT2", "X") then 5
  else if k = ("h2", "pP2", "X") then 5
  else 0

/-! ### Invariant predicates -/

/-- The conserved bookkeeping of one heuristic run: both shared counters
stay pointwise non-negative, and for every host (resp. egress) the flow
recorded so far plus the remaining counter equals the initial value. -/
def Ledger (U0 E0 : List (Str × ℚ)) (st : SimState) : Prop :=
  NonnegVals st.remU ∧ NonnegVals st.remE ∧
  (∀ h, hostFlow st.alloc h + getQ st.remU h = getQ U0 h) ∧
  (∀ e, egFlowField st.alloc e + getQ st.remE e = getQ E0 e)

/-- Every recorded allocation row charges the egress its path maps to, and
records a strictly positive amount (rows are only written when `sent > 0`). -/
def EntriesValid (pd : ProblemData) (st : SimState) : Prop :=
  ∀ a ∈ st.alloc, alookup pd.path_to_egress_mapping a.path = some a.egress ∧ 0 < a.amount

/-- The run-wide invariant of one heuristic simulation: the capacity ledger
relative to the declared capacities of the scenario, and the path/egress
consistency of every recorded row. -/
def SimInv (pd : ProblemData) (st : SimState) : Prop :=
  Ledger pd.endhost_uplinks pd.egress_capacities st ∧ EntriesValid pd st

/-- The capacity invariant of an allocation against the declared
capacities. -/
def CapacityOK (pd : ProblemData) (al : List AllocEntry) : Prop :=
  (∀ h, hostFlow al h ≤ getQ pd.endhost_uplinks h) ∧
  (∀ e, egFlowMap pd al e ≤ getQ pd.egress_capacities e)

/-- The path component keeps the separator detectable only at its intended
position: no occurrence of `_to_` starts inside `"_" + path + "_to_"`
before its final four characters. -/
def SepClean (p : List Char) : Prop :=
  ∀ j, j < p.length + 1 →
    startsWithSeq sepToList (('_' :: (p ++ sepToList)).drop j) = false

instance (p : List Char) : Decidable (SepClean p) := by
  unfold SepClean
  infer_instance

/-! ### Association-list lemmas -/

theorem getQ_nonneg {m : List (Str × ℚ)} (hm : NonnegVals m) (k : Str) : 0 ≤ getQ m k := by
  induction m with
  | nil => simp [getQ, aget, alookup]
  | cons kv rest ih =>
    simp only [getQ, aget, alookup]
    split
    · exact hm kv (List.mem_cons_self kv rest)
    · exact ih fun x hx => hm x (List.mem_cons_of_mem kv hx)

theorem updSub_nonneg {m : List (Str × ℚ)} {k : Str} {v : ℚ}
    (hm : NonnegVals m) (hv : v ≤ getQ m k) : NonnegVals (updSub m k v) := by
  induction m with
  | nil => simp [updSub, NonnegVals]
  | cons kv rest ih =>
    by_cases hk : kv.1 = k
    · rw [updSub, if_pos hk]
      intro x hx
      rcases List.mem_cons.mp hx with hx | hx
      · have hveq : getQ (kv :: rest) k = kv.2 := by
          simp [getQ, aget, alookup, hk]
        rw [hveq] at hv
        rw [hx]
        simpa using sub_nonneg.mpr hv
      · exact hm x (List.mem_cons_of_mem _ hx)
    · rw [updSub, if_neg hk]
      intro x hx
      rcases List.mem_cons.mp hx with hx | hx
      · rw [hx]; exact hm _ (List.mem_cons_self _ _)
      · have hv' : v ≤ getQ rest k := by
          simpa [getQ, aget, alookup, hk] using hv
        exact ih (fun y hy => hm y (List.mem_cons_of_mem _ hy)) hv' x hx

theorem getQ_updSub_self (m : List (Str × ℚ)) (k : Str) (v : ℚ) :
    getQ (updSub m k v) k = getQ m k - v ∨ (getQ m k = 0 ∧ updSub m k v = m) := by
  induction m with
  | nil => right; simp [getQ, aget, alookup, updSub]
  | cons kv rest ih =>
    simp only [updSub]
    split
    · rename_i hk
      left
      simp [getQ, aget, alookup, hk]
    · rename_i hk
      rcases ih with h | ⟨h0, heq⟩
      · left; simpa [getQ, aget, alookup, hk] using h
      · right
        constructor
        · simpa [getQ, aget, alookup, hk] using h0
        · rw [heq]

theorem getQ_updSub_ne (m : List (Str × ℚ)) (k v : _) (k' : Str) (h : k' ≠ k) :
    getQ (updSub m k v) k' = getQ m k' := by
  induction m with
  | nil => simp [updSub]
  | cons kv rest ih =>
    simp only [updSub]
    split
    · rename_i hk
      have : kv.1 ≠ k' := fun hc => h (hc ▸ hk)
      simp [getQ, aget, alookup, this]
    · rename_i hk
      by_cases hk' : kv.1 = k'
      · simp [getQ, aget, alookup, hk']
      · simpa [getQ, aget, alookup, hk'] using ih

theorem eraseKey_sum_le (m : List (Str × ℚ)) (k : Str) :
    getQ m k + sumVals (eraseKey m k) ≤ sumVals m := by
  induction m with
  | nil => simp [getQ, aget, alookup, eraseKey, sumVals]
  | cons kv rest ih =>
    by_cases hk : kv.1 = k
    · rw [eraseKey, if_pos hk]
      simp [getQ, aget, alookup, hk, sumVals]
    · rw [eraseKey, if_neg hk]
      have h1 : getQ (kv :: rest) k = getQ rest k := by
        simp [getQ, aget, alookup, hk]
      have h2 : sumVals (kv :: rest) = kv.2 + sumVals rest := by
        simp [sumVals]
      have h3 : sumVals (kv :: eraseKey rest k) = kv.2 + sumVals (eraseKey rest k) := by
        simp [sumVals]
      rw [h1, h2, h3]
      linarith

theorem getQ_eraseKey_ne (m : List (Str × ℚ)) (k k' : Str) (h : k' ≠ k) :
    getQ (eraseKey m k) k' = getQ m k' := by
  induction m with
  | nil => simp [eraseKey]
  | cons kv rest ih =>
    simp only [eraseKey]
    split
    · rename_i hk
      have : kv.1 ≠ k' := fun hc => h (hc ▸ hk)
      simp [getQ, aget, alookup, this]
    · rename_i hk
      by_cases hk' : kv.1 = k'
      · simp [getQ, aget, alookup, hk']
      · simpa [getQ, aget, alookup, hk'] using ih

theorem NonnegVals_eraseKey {m : List (Str × ℚ)} (hm : NonnegVals m) (k : Str) :
    NonnegVals (eraseKey m k) := by
  induction m with
  | nil => simpa [eraseKey] using hm
  | cons kv rest ih =>
    by_cases hk : kv.1 = k
    · rw [eraseKey, if_pos hk]
      exact fun x hx => hm x (List.mem_cons_of_mem _ hx)
    · rw [eraseKey, if_neg hk]
      intro x hx
      rcases List.mem_cons.mp hx with hx | hx
      · rw [hx]; exact hm _ (List.mem_cons_self _ _)
      · exact ih (fun y hy => hm y (List.mem_cons_of_mem _ hy)) x hx

theorem sumVals_nonneg {m : List (Str × ℚ)} (hm : NonnegVals m) : 0 ≤ sumVals m := by
  refine List.sum_nonneg ?_
  intro x hx
  rcases List.mem_map.mp hx with ⟨kv, hkv, rfl⟩
  exact hm kv hkv

/-- Over a duplicate-free host list, the per-host looked-up uplinks sum to
at most the sum of all stored uplink values. -/
theorem sum_getQ_le_sumVals (H : List Str) (m : List (Str × ℚ))
    (hH : H.Nodup) (hm : NonnegVals m) :
    (H.map (getQ m)).sum ≤ sumVals m := by
  induction H generalizing m with
  | nil => simpa using sumVals_nonneg hm
  | cons h rest ih =>
    have hnotmem : h ∉ rest := (List.nodup_cons.mp hH).1
    have hrest : rest.Nodup := (List.nodup_cons.mp hH).2
    have hmap : rest.map (getQ m) = rest.map (getQ (eraseKey m h)) := by
      refine List.map_congr_left ?_
      intro x hx
      exact (getQ_eraseKey_ne m h x (fun hc => hnotmem (hc ▸ hx))).symm
    calc (List.map (getQ m) (h :: rest)).sum
        = getQ m h + (rest.map (getQ m)).sum := by simp
      _ = getQ m h + (rest.map (getQ (eraseKey m h))).sum := by rw [hmap]
      _ ≤ getQ m h + sumVals (eraseKey m h) := by
          have := ih (eraseKey m h) hrest (NonnegVals_eraseKey hm h)
          linarith
      _ ≤ sumVals m := eraseKey_sum_le m h

/-! ### Ledger invariant of the heuristic simulators -/

theorem hostFlow_append_one (al : List AllocEntry) (a : AllocEntry) (h : Str) :
    hostFlow (al ++ [a]) h = hostFlow al h + (if a.host = h then a.amount else 0) := by
  simp [hostFlow]

theorem egFlowField_append_one (al : List AllocEntry) (a : AllocEntry) (e : Str) :
    egFlowField (al ++ [a]) e = egFlowField al e + (if a.egress = e then a.amount else 0) := by
  simp [egFlowField]

theorem allocTotal_append_one (al : List AllocEntry) (a : AllocEntry) :
    allocTotal (al ++ [a]) = allocTotal al + a.amount := by
  simp [allocTotal]

theorem sendOne_ledger {U0 E0 : List (Str × ℚ)} (h pa eg d : Str) (tpp : ℚ)
    (st : SimState) (hL : Ledger U0 E0 st) :
    Ledger U0 E0 (sendOne h pa eg d tpp st) := by
  obtain ⟨hU, hE, hhost, hegr⟩ := hL
  rw [sendOne]
  set sent := min tpp (min (getQ st.remU h) (getQ st.remE eg)) with hsent
  by_cases hpos : 0 < sent
  · rw [if_pos hpos]
    have hsU : sent ≤ getQ st.remU h :=
      le_trans (min_le_right _ _) (min_le_left _ _)
    have hsE : sent ≤ getQ st.remE eg :=
      le_trans (min_le_right _ _) (min_le_right _ _)
    refine ⟨updSub_nonneg hU hsU, updSub_nonneg hE hsE, ?_, ?_⟩
    · intro h'
      by_cases hh : h' = h
      · subst hh
        rcases getQ_updSub_self st.remU h' sent with hq | ⟨hq0, _⟩
        · have hone : hostFlow (st.alloc ++ [⟨h', pa, eg, d, sent⟩]) h'
              = hostFlow st.alloc h' + sent := by
            rw [hostFlow_append_one]; simp
          rw [hone, hq]
          have := hhost h'
          linarith
        · exact absurd (lt_of_lt_of_le hpos hsU) (by rw [hq0]; exact lt_irrefl 0)
      · have hone : hostFlow (st.alloc ++ [⟨h, pa, eg, d, sent⟩]) h'
            = hostFlow st.alloc h' := by
          rw [hostFlow_append_one, if_neg (fun hc : h = h' => hh hc.symm), add_zero]
        rw [hone, getQ_updSub_ne _ _ _ _ hh]
        exact hhost h'
    · intro e'
      by_cases he : e' = eg
      · subst he
        rcases getQ_updSub_self st.remE e' sent with hq | ⟨hq0, _⟩
        · have hone : egFlowField (st.alloc ++ [⟨h, pa, e', d, sent⟩]) e'
              = egFlowField st.alloc e' + sent := by
            rw [egFlowField_append_one]; simp
          rw [hone, hq]
          have := hegr e'
          linarith
        · exact absurd (lt_of_lt_of_le hpos hsE) (by rw [hq0]; exact lt_irrefl 0)
      · have hone : egFlowField (st.alloc ++ [⟨h, pa, eg, d, sent⟩]) e'
            = egFlowField st.alloc e' := by
          rw [egFlowField_append_one, if_neg (fun hc : eg = e' => he hc.symm), add_zero]
        rw [hone, getQ_updSub_ne _ _ _ _ he]
        exact hegr e'
  · rw [if_neg hpos]
    exact ⟨hU, hE, hhost, hegr⟩

theorem sendOne_entries {pd : ProblemData} (h pa eg d : Str) (tpp : ℚ) (st : SimState)
    (hpe : alookup pd.path_to_egress_mapping pa = some eg)
    (hQ : EntriesValid pd st) : EntriesValid pd (sendOne h pa eg d tpp st) := by
  rw [sendOne]
  split
  · rename_i hpos
    intro a ha
    rcases List.mem_append.mp ha with ha | ha
    · exact hQ a ha
    · rcases List.mem_singleton.mp ha with rfl
      exact ⟨hpe, hpos⟩
  · exact hQ

/-- Fold preservation, with membership available to the step hypothesis. -/
theorem foldl_preserve_mem {α : Type} (P : SimState → Prop) (g : α → SimState → SimState)
    (l : List α) (hg : ∀ a ∈ l, ∀ st, P st → P (g a st)) :
    ∀ st, P st → P (l.foldl (fun s a => g a s) st) := by
  induction l with
  | nil => intro st hst; simpa using hst
  | cons a rest ih =>
    intro st hst
    simp only [List.foldl_cons]
    exact ih (fun b hb st' hst' => hg b (List.mem_cons_of_mem a hb) st' hst')
      (g a st) (hg a (List.mem_cons_self a rest) st hst)

theorem possiblePaths_egress {pd : ProblemData} {h d : Str} {q : PathInfo}
    (hq : q ∈ possiblePaths pd h d) :
    alookup pd.path_to_egress_mapping q.path = some q.egress := by
  rcases List.mem_filterMap.mp hq with ⟨pa, hmem, hpa⟩
  split at hpa
  · exact absurd hpa (by simp)
  · rename_i eg heq
    split at hpa
    · have hqe := Option.some.inj hpa
      subst hqe
      exact heq
    · exact absurd hpa (by simp)

theorem possiblePathsR1_egress {pd : ProblemData} {useTransit : Bool} {h d : Str}
    {q : PathInfo} (hq : q ∈ possiblePathsR1 pd useTransit h d) :
    alookup pd.path_to_egress_mapping q.path = some q.egress := by
  rcases List.mem_filterMap.mp hq with ⟨pa, hmem, hpa⟩
  split at hpa
  · exact absurd hpa (by simp)
  · rename_i eg heq
    split at hpa
    · split at hpa
      · exact absurd hpa (by simp)
      · have hqe := Option.some.inj hpa
        subst hqe
        exact heq
    · exact absurd hpa (by simp)

theorem availablePathsFs_egress {pd : ProblemData} {h d : Str} {pe : Str × Str}
    (hpe : pe ∈ availablePathsFs pd h d) :
    alookup pd.path_to_egress_mapping pe.1 = some pe.2 := by
  rcases List.mem_filterMap.mp hpe with ⟨pa, hmem, hpa⟩
  split at hpa
  · exact absurd hpa (by simp)
  · rename_i eg heq
    split at hpa
    · have hqe := Option.some.inj hpa
      subst hqe
      exact heq
    · exact absurd hpa (by simp)

theorem mem_orderedInsertLat {x a : PathInfo} :
    ∀ {l : List PathInfo}, a ∈ orderedInsertLat x l → a = x ∨ a ∈ l := by
  intro l
  induction l with
  | nil => intro ha; simpa [orderedInsertLat] using ha
  | cons y ys ih =>
    intro ha
    rw [orderedInsertLat] at ha
    split at ha
    · rcases List.mem_cons.mp ha with ha | ha
      · exact Or.inl ha
      · exact Or.inr ha
    · rcases List.mem_cons.mp ha with ha | ha
      · exact Or.inr (ha ▸ List.mem_cons_self y ys)
      · rcases ih ha with ha | ha
        · exact Or.inl ha
        · exact Or.inr (List.mem_cons_of_mem y ha)

theorem mem_sortByLat {a : PathInfo} :
    ∀ {l : List PathInfo}, a ∈ sortByLat l → a ∈ l := by
  intro l
  induction l with
  | nil => intro ha; simp [sortByLat] at ha
  | cons x xs ih =>
    intro ha
    rw [sortByLat] at ha
    rcases mem_orderedInsertLat ha with ha | ha
    · exact ha ▸ List.mem_cons_self x xs
    · exact List.mem_cons_of_mem x (ih ha)

theorem minByLat_mem (rest : List PathInfo) :
    ∀ p : PathInfo, minByLat p rest ∈ p :: rest := by
  induction rest with
  | nil => intro p; simp [minByLat]
  | cons q qs ih =>
    intro p
    rw [minByLat, List.foldl_cons]
    have hmem := ih (if latLtB q.latency p.latency = true then q else p)
    rw [minByLat] at hmem
    rcases List.mem_cons.mp hmem with hm | hm
    · rw [hm]
      by_cases hlt : latLtB q.latency p.latency = true
      · simp [hlt]
      · simp [hlt]
    · exact List.mem_cons_of_mem p (List.mem_cons_of_mem q hm)

theorem sendOne_inv {pd : ProblemData} (h pa eg d : Str) (tpp : ℚ) (st : SimState)
    (hpe : alookup pd.path_to_egress_mapping pa = some eg)
    (hI : SimInv pd st) : SimInv pd (sendOne h pa eg d tpp st) :=
  ⟨sendOne_ledger h pa eg d tpp st hI.1, sendOne_entries h pa eg d tpp st hpe hI.2⟩

theorem processPairR3_inv (pd : ProblemData) (mode : Mode) (h d : Str) (dem : ℚ)
    (st : SimState) (hI : SimInv pd st) : SimInv pd (processPairR3 pd mode h d dem st) := by
  rcases hpp : possiblePaths pd h d with _ | ⟨p0, rest⟩ <;> cases mode <;>
    simp only [processPairR3, hpp]
  · exact hI
  · exact hI
  · refine foldl_preserve_mem (SimInv pd) _ _ ?_ st hI
    intro q hq st' hst'
    rcases List.mem_singleton.mp hq with rfl
    exact sendOne_inv _ _ _ _ _ _ (possiblePaths_egress (hpp.symm ▸ minByLat_mem rest p0)) hst'
  · refine foldl_preserve_mem (SimInv pd) _ _ ?_ st hI
    intro q hq st' hst'
    exact sendOne_inv _ _ _ _ _ _ (possiblePaths_egress (hpp.symm ▸ hq)) hst'

theorem fillSorted_inv {pd : ProblemData} (h d : Str) :
    ∀ (l : List PathInfo), (∀ q ∈ l, alookup pd.path_to_egress_mapping q.path = some q.egress) →
    ∀ (remaining : ℚ) (st : SimState), SimInv pd st →
    SimInv pd (fillSorted h d l remaining st) := by
  intro l
  induction l with
  | nil => intro _ remaining st hst; simpa [fillSorted] using hst
  | cons q rest ih =>
    intro hl remaining st hst
    rw [fillSorted]
    split
    · exact hst
    · exact ih (fun q' hq' => hl q' (List.mem_cons_of_mem q hq')) _ _
        (sendOne_inv h q.path q.egress d _ st (hl q (List.mem_cons_self q rest)) hst)

theorem processPairR1_inv (pd : ProblemData) (useTransit : Bool) (mode : Mode)
    (h d : Str) (dem : ℚ) (st : SimState) (hI : SimInv pd st) :
    SimInv pd (processPairR1 pd useTransit mode h d dem st) := by
  rcases hpp : possiblePathsR1 pd useTransit h d with _ | ⟨p0, rest⟩ <;> cases mode <;>
    simp only [processPairR1, hpp]
  · exact hI
  · exact hI
  · refine fillSorted_inv h d _ ?_ dem st hI
    intro q hq
    exact possiblePathsR1_egress (hpp.symm ▸ mem_sortByLat hq)
  · refine foldl_preserve_mem (SimInv pd) _ _ ?_ st hI
    intro q hq st' hst'
    exact sendOne_inv _ _ _ _ _ _ (possiblePathsR1_egress (hpp.symm ▸ hq)) hst'

theorem processPairFs_inv (pd : ProblemData) (h d : Str) (dem : ℚ) (st : SimState)
    (hI : SimInv pd st) : SimInv pd (processPairFs pd h d dem st) := by
  rcases hpp : availablePathsFs pd h d with _ | ⟨p0, rest⟩ <;>
    simp only [processPairFs, hpp]
  · exact hI
  · refine foldl_preserve_mem (SimInv pd) _ _ ?_ st hI
    intro pe hpe st' hst'
    exact sendOne_inv _ _ _ _ _ _ (availablePathsFs_egress (hpp.symm ▸ hpe)) hst'

theorem initState_inv (pd : ProblemData) (hU : NonnegVals pd.endhost_uplinks)
    (hE : NonnegVals pd.egress_capacities) : SimInv pd (initState pd) := by
  refine ⟨⟨hU, hE, ?_, ?_⟩, ?_⟩
  · intro h; simp [initState, hostFlow]
  · intro e; simp [initState, egFlowField]
  · intro a ha; simp [initState] at ha

/-- The invariant holds at the final state of every heuristic simulation. -/
theorem run_behavioral_sim_inv (pd : ProblemData) (mode : Mode) (out : SimOutput)
    (hU : NonnegVals pd.endhost_uplinks) (hE : NonnegVals pd.egress_capacities)
    (hrun : run_behavioral_sim pd mode = some out) : SimInv pd out.finState := by
  rw [run_behavioral_sim] at hrun
  split at hrun
  · exact absurd hrun (by simp)
  · have hout := (Option.some.inj hrun).symm
    rw [hout]
    refine foldl_preserve_mem (SimInv pd) _ pd.endhosts ?_ (initState pd)
      (initState_inv pd hU hE)
    intro h _ st hst
    refine foldl_preserve_mem (SimInv pd)
      (fun dd st2 => processPairR3 pd mode h dd.1
        (hostDemandShare pd (sumVals pd.endhost_uplinks) h dd.2) st2)
      pd.traffic_per_destination ?_ st hst
    intro dd _ st2 hst2
    exact processPairR3_inv pd mode h dd.1 _ st2 hst2

theorem run_behavioral_sim_r1_inv (pd : ProblemData) (mode : Mode) (useTransit : Bool)
    (out : SimOutput)
    (hU : NonnegVals pd.endhost_uplinks) (hE : NonnegVals pd.egress_capacities)
    (hrun : run_behavioral_sim_r1 pd mode useTransit = some out) : SimInv pd out.finState := by
  rw [run_behavioral_sim_r1] at hrun
  split at hrun
  · exact absurd hrun (by simp)
  · have hout := (Option.some.inj hrun).symm
    rw [hout]
    refine foldl_preserve_mem (SimInv pd) _ pd.endhosts ?_ (initState pd)
      (initState_inv pd hU hE)
    intro h _ st hst
    refine foldl_preserve_mem (SimInv pd)
      (fun dd st2 => processPairR1 pd useTransit mode h dd.1
        (hostDemandShare pd (sumVals pd.endhost_uplinks) h dd.2) st2)
      pd.traffic_per_destination ?_ st hst
    intro dd _ st2 hst2
    exact processPairR1_inv pd useTransit mode h dd.1 _ st2 hst2

theorem simulate_fair_share_inv (pd : ProblemData) (out : SimOutput)
    (hU : NonnegVals pd.endhost_uplinks) (hE : NonnegVals pd.egress_capacities)
    (hrun : simulate_fair_share pd = some out) : SimInv pd out.finState := by
  rw [simulate_fair_share] at hrun
  split at hrun
  · exact absurd hrun (by simp)
  · have hout := (Option.some.inj hrun).symm
    rw [hout]
    refine foldl_preserve_mem (SimInv pd) _ pd.endhosts ?_ (initState pd)
      (initState_inv pd hU hE)
    intro h _ st hst
    refine foldl_preserve_mem (SimInv pd)
      (fun dd st2 => processPairFs pd h dd.1
        (hostDemandShare pd (sumVals pd.endhost_uplinks) h dd.2) st2)
      pd.traffic_per_destination ?_ st hst
    intro dd _ st2 hst2
    exact processPairFs_inv pd h dd.1 _ st2 hst2

theorem egFlowMap_eq_field {pd : ProblemData} {st : SimState}
    (hV : EntriesValid pd st) (e : Str) :
    egFlowMap pd st.alloc e = egFlowField st.alloc e := by
  unfold egFlowMap egFlowField
  refine congrArg List.sum (List.map_congr_left ?_)
  intro a ha
  rw [(hV a ha).1]
  by_cases he : a.egress = e
  · rw [if_pos (by rw [he]), if_pos he]
  · rw [if_neg (fun hc => he (Option.some.inj hc)), if_neg he]

theorem SimInv_capacityOK {pd : ProblemData} {st : SimState} (hI : SimInv pd st) :
    CapacityOK pd st.alloc := by
  obtain ⟨⟨hU, hE, hhost, hegr⟩, hV⟩ := hI
  constructor
  · intro h
    have h1 := hhost h
    have h0 : 0 ≤ getQ st.remU h := getQ_nonneg hU h
    linarith
  · intro e
    rw [egFlowMap_eq_field hV]
    have h1 := hegr e
    have h0 : 0 ≤ getQ st.remE e := getQ_nonneg hE e
    linarith

/-! ### Bounding the total allocated volume by the offered demand -/

theorem sendOne_allocTotal_le (h pa eg d : Str) (tpp : ℚ) (st : SimState) :
    allocTotal (sendOne h pa eg d tpp st).alloc ≤ allocTotal st.alloc + max tpp 0 := by
  simp only [sendOne]
  split
  · rename_i hpos
    rw [allocTotal_append_one]
    have h1 : min tpp (min (getQ st.remU h) (getQ st.remE eg)) ≤ tpp := min_le_left _ _
    have h2 : tpp ≤ max tpp 0 := le_max_left _ _
    linarith
  · exact le_add_of_nonneg_right (le_max_right _ _)

theorem foldSend_allocTotal_le {α : Type} (h d : Str) (tpp : ℚ) (pth egf : α → Str) :
    ∀ (l : List α) (st : SimState),
      allocTotal ((l.foldl (fun s a => sendOne h (pth a) (egf a) d tpp s) st).alloc)
        ≤ allocTotal st.alloc + (l.length : ℚ) * max tpp 0 := by
  intro l
  induction l with
  | nil => intro st; simp
  | cons a rest ih =>
    intro st
    simp only [List.foldl_cons, List.length_cons]
    have h1 := ih (sendOne h (pth a) (egf a) d tpp st)
    have h2 := sendOne_allocTotal_le h (pth a) (egf a) d tpp st
    have hcast : ((rest.length + 1 : ℕ) : ℚ) = (rest.length : ℚ) + 1 := by push_cast; ring
    rw [hcast]
    have hmx : 0 ≤ max tpp 0 := le_max_right _ _
    nlinarith

theorem length_mul_max_div (n : ℕ) (hn : 0 < n) (dem : ℚ) :
    (n : ℚ) * max (dem / (n : ℚ)) 0 = max dem 0 := by
  have hn' : (0 : ℚ) < (n : ℚ) := by exact_mod_cast hn
  rcases le_or_lt dem 0 with hd | hd
  · have h1 : dem / (n : ℚ) ≤ 0 := div_nonpos_of_nonpos_of_nonneg hd hn'.le
    rw [max_eq_right h1, max_eq_right hd, mul_zero]
  · have h1 : 0 ≤ dem / (n : ℚ) := le_of_lt (div_pos hd hn')
    rw [max_eq_left h1, max_eq_left (le_of_lt hd)]
    field_simp

theorem processPairR3_allocTotal_le (pd : ProblemData) (mode : Mode) (h d : Str)
    (dem : ℚ) (st : SimState) :
    allocTotal (processPairR3 pd mode h d dem st).alloc
      ≤ allocTotal st.alloc + max dem 0 := by
  rcases hpp : possiblePaths pd h d with _ | ⟨p0, rest⟩ <;> cases mode <;>
    simp only [processPairR3, hpp]
  · exact le_add_of_nonneg_right (le_max_right _ _)
  · exact le_add_of_nonneg_right (le_max_right _ _)
  · have hb := foldSend_allocTotal_le h d
      (dem / ((List.length [minByLat p0 rest] : ℕ) : ℚ))
      (fun q => q.path) (fun q => q.egress) [minByLat p0 rest] st
    refine le_trans hb ?_
    rw [length_mul_max_div _ (by simp) dem]
  · have hb := foldSend_allocTotal_le h d
      (dem / ((List.length (p0 :: rest) : ℕ) : ℚ))
      (fun q => q.path) (fun q => q.egress) (p0 :: rest) st
    refine le_trans hb ?_
    rw [length_mul_max_div _ (by simp) dem]

theorem fillSorted_allocTotal_le (h d : Str) :
    ∀ (l : List PathInfo) (remaining : ℚ) (st : SimState),
      allocTotal (fillSorted h d l remaining st).alloc
        ≤ allocTotal st.alloc + max remaining 0 := by
  intro l
  induction l with
  | nil =>
    intro remaining st
    rw [fillSorted]
    exact le_add_of_nonneg_right (le_max_right _ _)
  | cons q rest ih =>
    intro remaining st
    simp only [fillSorted]
    split
    · exact le_add_of_nonneg_right (le_max_right _ _)
    · rename_i hrem
      have hrpos : 0 < remaining := by
        have h6 : (0:ℚ) < 1 / 1000000 := by norm_num
        have := lt_of_not_le hrem
        linarith
      by_cases hpos : 0 < min remaining (min (getQ st.remU h) (getQ st.remE q.egress))
      · rw [if_pos hpos]
        have hcle : min remaining (min (getQ st.remU h) (getQ st.remE q.egress)) ≤ remaining :=
          min_le_left _ _
        have hsend : (sendOne h q.path q.egress d remaining st).alloc
            = st.alloc ++ [⟨h, q.path, q.egress, d,
                min remaining (min (getQ st.remU h) (getQ st.remE q.egress))⟩] := by
          simp only [sendOne]
          rw [if_pos hpos]
        have hih := ih (remaining - min remaining (min (getQ st.remU h) (getQ st.remE q.egress)))
          (sendOne h q.path q.egress d remaining st)
        rw [hsend, allocTotal_append_one] at hih
        have hmax1 : max (remaining - min remaining (min (getQ st.remU h) (getQ st.remE q.egress))) 0
            = remaining - min remaining (min (getQ st.remU h) (getQ st.remE q.egress)) :=
          max_eq_left (by linarith)
        rw [hmax1] at hih
        rw [max_eq_left (le_of_lt hrpos)]
        linarith
      · rw [if_neg hpos]
        have hsend : sendOne h q.path q.egress d remaining st = st := by
          simp only [sendOne]
          rw [if_neg hpos]
        rw [hsend]
        exact ih remaining st

theorem processPairR1_allocTotal_le (pd : ProblemData) (useTransit : Bool) (mode : Mode)
    (h d : Str) (dem : ℚ) (st : SimState) :
    allocTotal (processPairR1 pd useTransit mode h d dem st).alloc
      ≤ allocTotal st.alloc + max dem 0 := by
  rcases hpp : possiblePathsR1 pd useTransit h d with _ | ⟨p0, rest⟩ <;> cases mode <;>
    simp only [processPairR1, hpp]
  · exact le_add_of_nonneg_right (le_max_right _ _)
  · exact le_add_of_nonneg_right (le_max_right _ _)
  · exact fillSorted_allocTotal_le h d _ dem st
  · have hb := foldSend_allocTotal_le h d
      (dem / ((List.length (p0 :: rest) : ℕ) : ℚ))
      (fun q => q.path) (fun q => q.egress) (p0 :: rest) st
    refine le_trans hb ?_
    rw [length_mul_max_div _ (by simp) dem]

theorem processPairFs_allocTotal_le (pd : ProblemData) (h d : Str) (dem : ℚ) (st : SimState) :
    allocTotal (processPairFs pd h d dem st).alloc
      ≤ allocTotal st.alloc + max dem 0 := by
  rcases hpp : availablePathsFs pd h d with _ | ⟨p0, rest⟩ <;>
    simp only [processPairFs, hpp]
  · exact le_add_of_nonneg_right (le_max_right _ _)
  · have hb := foldSend_allocTotal_le h d
      (dem / ((List.length (p0 :: rest) : ℕ) : ℚ))
      (fun pe => pe.1) (fun pe => pe.2) (p0 :: rest) st
    refine le_trans hb ?_
    rw [length_mul_max_div _ (by simp) dem]

theorem list_sum_map_mul {α : Type} (l : List α) (f : α → ℚ) (c : ℚ) :
    (l.map fun x => f x * c).sum = (l.map f).sum * c := by
  induction l with
  | nil => simp
  | cons x rest ih => simp [ih]; ring

theorem innerFold_allocTotal_le (process : Str → Str → ℚ → SimState → SimState)
    (hproc : ∀ h d dem st, allocTotal (process h d dem st).alloc ≤ allocTotal st.alloc + max dem 0)
    (f : Str → ℚ → ℚ) (h : Str) :
    ∀ (T : List (Str × ℚ)) (st : SimState),
      allocTotal ((T.foldl (fun st2 dd => process h dd.1 (f h dd.2) st2) st).alloc)
        ≤ allocTotal st.alloc + (T.map fun dd => max (f h dd.2) 0).sum := by
  intro T
  induction T with
  | nil => intro st; simp
  | cons dd rest ih =>
    intro st
    simp only [List.foldl_cons, List.map_cons, List.sum_cons]
    have h1 := ih (process h dd.1 (f h dd.2) st)
    have h2 := hproc h dd.1 (f h dd.2) st
    linarith

theorem doubleFold_allocTotal_le (process : Str → Str → ℚ → SimState → SimState)
    (hproc : ∀ h d dem st, allocTotal (process h d dem st).alloc ≤ allocTotal st.alloc + max dem 0)
    (f : Str → ℚ → ℚ) (T : List (Str × ℚ)) :
    ∀ (H : List Str) (st : SimState),
      allocTotal ((H.foldl (fun st h =>
          T.foldl (fun st2 dd => process h dd.1 (f h dd.2) st2) st) st).alloc)
        ≤ allocTotal st.alloc +
          (H.map fun h => (T.map fun dd => max (f h dd.2) 0).sum).sum := by
  intro H
  induction H with
  | nil => intro st; simp
  | cons h hs ih =>
    intro st
    simp only [List.foldl_cons, List.map_cons, List.sum_cons]
    have h1 := ih (T.foldl (fun st2 dd => process h dd.1 (f h dd.2) st2) st)
    have h2 := innerFold_allocTotal_le process hproc f h T st
    linarith

/-- The per-host demand shares, summed over hosts and destinations, never
exceed the total declared demand: the split is proportional to each host's
share of the total uplink. -/
theorem demandShare_sum_le (pd : ProblemData) (hH : pd.endhosts.Nodup)
    (hU : NonnegVals pd.endhost_uplinks) (hT : NonnegVals pd.traffic_per_destination)
    (htot : sumVals pd.endhost_uplinks ≠ 0) :
    (pd.endhosts.map fun h => (pd.traffic_per_destination.map
        fun dd => max (hostDemandShare pd (sumVals pd.endhost_uplinks) h dd.2) 0).sum).sum
      ≤ sumVals pd.traffic_per_destination := by
  set tot := sumVals pd.endhost_uplinks with htotdef
  have htotpos : 0 < tot := lt_of_le_of_ne (sumVals_nonneg hU) (Ne.symm htot)
  have hinner : ∀ h : Str,
      (pd.traffic_per_destination.map
        fun dd => max (hostDemandShare pd tot h dd.2) 0).sum
      = sumVals pd.traffic_per_destination * (getQ pd.endhost_uplinks h / tot) := by
    intro h
    have hshare : 0 ≤ getQ pd.endhost_uplinks h / tot :=
      div_nonneg (getQ_nonneg hU h) (le_of_lt htotpos)
    have hcongr : (pd.traffic_per_destination.map
          fun dd => max (hostDemandShare pd tot h dd.2) 0)
        = pd.traffic_per_destination.map
          fun dd => dd.2 * (getQ pd.endhost_uplinks h / tot) := by
      refine List.map_congr_left ?_
      intro dd hdd
      have hd2 : 0 ≤ dd.2 := hT dd hdd
      rw [hostDemandShare, max_eq_left (mul_nonneg hd2 hshare)]
    rw [hcongr, list_sum_map_mul pd.traffic_per_destination (fun dd => dd.2)]
    rfl
  have houter : (pd.endhosts.map fun h => (pd.traffic_per_destination.map
        fun dd => max (hostDemandShare pd tot h dd.2) 0).sum).sum
      = (pd.endhosts.map fun h =>
          getQ pd.endhost_uplinks h * (sumVals pd.traffic_per_destination / tot)).sum := by
    refine congrArg List.sum (List.map_congr_left ?_)
    intro h _
    rw [hinner h]
    field_simp
    ring
  rw [houter, list_sum_map_mul pd.endhosts (getQ pd.endhost_uplinks)]
  have hle := sum_getQ_le_sumVals pd.endhosts pd.endhost_uplinks hH hU
  have hTnn : 0 ≤ sumVals pd.traffic_per_destination := sumVals_nonneg hT
  have hfrac : 0 ≤ sumVals pd.traffic_per_destination / tot :=
    div_nonneg hTnn (le_of_lt htotpos)
  calc (pd.endhosts.map (getQ pd.endhost_uplinks)).sum
        * (sumVals pd.traffic_per_destination / tot)
      ≤ tot * (sumVals pd.traffic_per_destination / tot) := by
        exact mul_le_mul_of_nonneg_right hle hfrac
    _ = sumVals pd.traffic_per_destination := by
        field_simp

theorem run_behavioral_sim_unsent (pd : ProblemData) (mode : Mode) (out : SimOutput)
    (hH : pd.endhosts.Nodup) (hU : NonnegVals pd.endhost_uplinks)
    (hT : NonnegVals pd.traffic_per_destination)
    (hrun : run_behavioral_sim pd mode = some out) :
    out.totalUnsent = sumVals pd.traffic_per_destination - out.totalSent ∧
    0 ≤ out.totalUnsent := by
  rw [run_behavioral_sim] at hrun
  split at hrun
  · exact absurd hrun (by simp)
  · rename_i htot
    have hout := (Option.some.inj hrun).symm
    have hb := doubleFold_allocTotal_le
      (fun h d dem st => processPairR3 pd mode h d dem st)
      (fun h d dem st => processPairR3_allocTotal_le pd mode h d dem st)
      (fun h v => hostDemandShare pd (sumVals pd.endhost_uplinks) h v)
      pd.traffic_per_destination pd.endhosts (initState pd)
    simp only at hb
    have hds := demandShare_sum_le pd hH hU hT htot
    have hinit : allocTotal (initState pd).alloc = 0 := by simp [initState, allocTotal]
    rw [hinit] at hb
    rw [hout]
    refine ⟨rfl, ?_⟩
    simp only
    linarith

theorem run_behavioral_sim_r1_unsent (pd : ProblemData) (mode : Mode) (useTransit : Bool)
    (out : SimOutput)
    (hH : pd.endhosts.Nodup) (hU : NonnegVals pd.endhost_uplinks)
    (hT : NonnegVals pd.traffic_per_destination)
    (hrun : run_behavioral_sim_r1 pd mode useTransit = some out) :
    out.totalUnsent = sumVals pd.traffic_per_destination - out.totalSent ∧
    0 ≤ out.totalUnsent := by
  rw [run_behavioral_sim_r1] at hrun
  split at hrun
  · exact absurd hrun (by simp)
  · rename_i htot
    have hout := (Option.some.inj hrun).symm
    have hb := doubleFold_allocTotal_le
      (fun h d dem st => processPairR1 pd useTransit mode h d dem st)
      (fun h d dem st => processPairR1_allocTotal_le pd useTransit mode h d dem st)
      (fun h v => hostDemandShare pd (sumVals pd.endhost_uplinks) h v)
      pd.traffic_per_destination pd.endhosts (initState pd)
    simp only at hb
    have hds := demandShare_sum_le pd hH hU hT htot
    have hinit : allocTotal (initState pd).alloc = 0 := by simp [initState, allocTotal]
    rw [hinit] at hb
    rw [hout]
    refine ⟨rfl, ?_⟩
    simp only
    linarith

theorem simulate_fair_share_unsent (pd : ProblemData) (out : SimOutput)
    (hH : pd.endhosts.Nodup) (hU : NonnegVals pd.endhost_uplinks)
    (hT : NonnegVals pd.traffic_per_destination)
    (hrun : simulate_fair_share pd = some out) :
    out.totalUnsent = sumVals pd.traffic_per_destination - out.totalSent ∧
    0 ≤ out.totalUnsent := by
  rw [simulate_fair_share] at hrun
  split at hrun
  · exact absurd hrun (by simp)
  · rename_i htot
    have hout := (Option.some.inj hrun).symm
    have hb := doubleFold_allocTotal_le
      (fun h d dem st => processPairFs pd h d dem st)
      (fun h d dem st => processPairFs_allocTotal_le pd h d dem st)
      (fun h v => hostDemandShare pd (sumVals pd.endhost_uplinks) h v)
      pd.traffic_per_destination pd.endhosts (initState pd)
    simp only at hb
    have hds := demandShare_sum_le pd hH hU hT htot
    have hinit : allocTotal (initState pd).alloc = 0 := by simp [initState, allocTotal]
    rw [hinit] at hb
    rw [hout]
    refine ⟨rfl, ?_⟩
    simp only
    linarith

/-! ### Lemmas for the allocation-key round trip -/

theorem dropAppendLe {α : Type} :
    ∀ (l1 l2 : List α) (i : ℕ), i ≤ l1.length → (l1 ++ l2).drop i = l1.drop i ++ l2 := by
  intro l1
  induction l1 with
  | nil =>
    intro l2 i hi
    have hi0 : i = 0 := Nat.le_zero.mp hi
    rw [hi0]
    simp
  | cons x xs ih =>
    intro l2 i hi
    cases i with
    | zero => simp
    | succ j =>
      simp only [List.cons_append, List.drop_succ_cons]
      exact ih l2 j (by simpa using hi)

theorem dropAppendLen {α : Type} :
    ∀ (l1 l2 : List α) (j : ℕ), (l1 ++ l2).drop (l1.length + j) = l2.drop j := by
  intro l1
  induction l1 with
  | nil => intro l2 j; simp
  | cons x xs ih =>
    intro l2 j
    have harith : (x :: xs).length + j = (xs.length + j) + 1 := by
      simp [List.length_cons]; omega
    rw [harith, List.cons_append, List.drop_succ_cons]
    exact ih l2 j

theorem startsWithSeq_append_self : ∀ (sep post : List Char),
    startsWithSeq sep (sep ++ post) = true := by
  intro sep
  induction sep with
  | nil => intro post; rfl
  | cons c cs ih =>
    intro post
    simp [startsWithSeq, ih post]

theorem startsWithSeq_append_of_le : ∀ (sep l post : List Char), sep.length ≤ l.length →
    startsWithSeq sep (l ++ post) = startsWithSeq sep l := by
  intro sep
  induction sep with
  | nil => intro l post _; rfl
  | cons c cs ih =>
    intro l post hl
    cases l with
    | nil => simp at hl
    | cons x xs =>
      simp only [List.cons_append, startsWithSeq, List.append_eq]
      rw [ih xs post (by simpa using hl)]

theorem splitFirstSeq_of_not_contains : ∀ (sep s : List Char),
    containsSeq sep s = false → splitFirstSeq sep s = none := by
  intro sep s
  induction s with
  | nil => intro _; rfl
  | cons c rest ih =>
    intro hc
    rw [containsSeq, Bool.or_eq_false_iff] at hc
    rw [splitFirstSeq, if_neg (by rw [hc.1]; simp)]
    rw [ih hc.2]

theorem splitFirstSeq_exact : ∀ (sep pre post : List Char), sep ≠ [] →
    (∀ i, i < pre.length → startsWithSeq sep ((pre ++ sep ++ post).drop i) = false) →
    splitFirstSeq sep (pre ++ sep ++ post) = some (pre, post) := by
  intro sep pre
  induction pre with
  | nil =>
    intro post hsep _
    rcases sep with _ | ⟨c, cs⟩
    · exact absurd rfl hsep
    · have hsw := startsWithSeq_append_self (c :: cs) post
      rw [List.nil_append, List.cons_append]
      rw [List.cons_append] at hsw
      rw [splitFirstSeq, if_pos hsw]
      have hd : (c :: (cs ++ post)).drop (c :: cs).length = post := by
        rw [show (c :: cs).length = cs.length + 1 from rfl, List.drop_succ_cons]
        have h2 := dropAppendLen cs post 0
        simp only [Nat.add_zero, List.drop_zero] at h2
        exact h2
      rw [hd]
  | cons a pre' ih =>
    intro post hsep hocc
    have h0 : startsWithSeq sep ((a :: pre') ++ sep ++ post) = false := by
      have := hocc 0 (by simp)
      simpa using this
    rcases sep with _ | ⟨c, cs⟩
    · exact absurd rfl hsep
    · rw [List.cons_append, List.cons_append]
      rw [List.cons_append, List.cons_append] at h0
      rw [splitFirstSeq, if_neg (by rw [h0]; simp)]
      have hrest : splitFirstSeq (c :: cs) (pre' ++ (c :: cs) ++ post) = some (pre', post) := by
        refine ih post hsep ?_
        intro i hi
        have h2 := hocc (i + 1) (by simp; omega)
        rw [List.cons_append, List.cons_append, List.drop_succ_cons] at h2
        exact h2
      rw [hrest]

theorem noOcc_head_ne (h tail : List Char) (c0 : Char) (cs : List Char)
    (hh : c0 ∉ h) : ∀ i, i < h.length →
    startsWithSeq (c0 :: cs) ((h ++ tail).drop i) = false := by
  intro i hi
  rw [dropAppendLe h tail i (le_of_lt hi)]
  rw [List.drop_eq_getElem_cons hi]
  have hne : h[i] ≠ c0 := fun hc => hh (hc ▸ List.getElem_mem hi)
  rw [List.cons_append]
  rw [Bool.eq_false_iff]
  intro hb
  rw [startsWithSeq, Bool.and_eq_true, decide_eq_true_eq] at hb
  exact hne hb.1.symm

theorem firstOcc_at_sep (host p d : List Char) (hh : '_' ∉ host) (hp : SepClean p) :
    ∀ i, i < (host ++ '_' :: p).length →
      startsWithSeq sepToList (((host ++ '_' :: p) ++ sepToList ++ d).drop i) = false := by
  intro i hi
  have hlen : (host ++ '_' :: p).length = host.length + (p.length + 1) := by simp
  by_cases hcase : i < host.length
  · have hre : ((host ++ '_' :: p) ++ sepToList ++ d)
        = host ++ ('_' :: (p ++ (sepToList ++ d))) := by simp
    rw [hre]
    have hsep : sepToList = '_' :: ['t', 'o', '_'] := rfl
    rw [hsep]
    exact noOcc_head_ne host _ '_' _ hh i hcase
  · push_neg at hcase
    obtain ⟨j, rfl⟩ : ∃ j, i = host.length + j := ⟨i - host.length, by omega⟩
    have hj : j < p.length + 1 := by rw [hlen] at hi; omega
    have hre : ((host ++ '_' :: p) ++ sepToList ++ d)
        = host ++ (('_' :: (p ++ sepToList)) ++ d) := by simp
    rw [hre, dropAppendLen host _ j]
    have hjle : j ≤ ('_' :: (p ++ sepToList)).length := by
      simp [sepToList]
      omega
    rw [dropAppendLe _ d j hjle]
    have hmidlen : sepToList.length ≤ (('_' :: (p ++ sepToList)).drop j).length := by
      simp [sepToList]
      omega
    rw [startsWithSeq_append_of_le _ _ _ hmidlen]
    exact hp j hj

theorem splitUnderscore (host p : List Char) (hh : '_' ∉ host) :
    splitFirstSeq ['_'] (host ++ '_' :: p) = some (host, p) := by
  have hocc : ∀ i, i < host.length →
      startsWithSeq ['_'] ((host ++ ['_'] ++ p).drop i) = false := by
    intro i hi
    have hre : host ++ ['_'] ++ p = host ++ ('_' :: p) := by simp
    rw [hre]
    exact noOcc_head_ne host _ '_' [] hh i hi
  have := splitFirstSeq_exact ['_'] host p (by simp) hocc
  have hre2 : host ++ ['_'] ++ p = host ++ '_' :: p := by simp
  rw [hre2] at this
  exact this

/-- Round trip of the allocation-key convention: under the hypotheses, the
parser of `performance_analyzer.py` recovers the encoded triple. -/
theorem parseKey_encodeKey (host p d : List Char) (hh : '_' ∉ host)
    (hp : SepClean p) (hd : containsSeq sepToList d = false) :
    parseKey (encodeKey host p d) = some (host, p, d) := by
  have henc : encodeKey host p d = (host ++ '_' :: p) ++ sepToList ++ d := by
    simp [encodeKey]
  have h1 : splitFirstSeq sepToList (encodeKey host p d) = some (host ++ '_' :: p, d) := by
    rw [henc]
    exact splitFirstSeq_exact sepToList (host ++ '_' :: p) d (by simp [sepToList])
      (firstOcc_at_sep host p d hh hp)
  simp only [parseKey, h1, splitFirstSeq_of_not_contains sepToList d hd,
    splitUnderscore host p hh]

/-! ### Remaining helper lemmas -/

theorem if_sum_le {α : Type} (l : List α) (σ : α → ℚ) (P Q : α → Prop)
    [DecidablePred P] [DecidablePred Q]
    (hnn : ∀ k ∈ l, 0 ≤ σ k) (hPQ : ∀ k, P k → Q k) :
    (l.map fun k => if P k then σ k else 0).sum ≤ (l.map fun k => if Q k then σ k else 0).sum := by
  refine List.sum_le_sum ?_
  intro k hk
  by_cases hP : P k
  · rw [if_pos hP, if_pos (hPQ k hP)]
  · rw [if_neg hP]
    by_cases hQ : Q k
    · rw [if_pos hQ]; exact hnn k hk
    · rw [if_neg hQ]

theorem sum_map_sub {α : Type} (l : List α) (f g : α → ℚ) :
    (l.map f).sum - (l.map g).sum = (l.map fun x => f x - g x).sum := by
  induction l with
  | nil => simp
  | cons x rest ih => simp only [List.map_cons, List.sum_cons]; linarith

theorem sum_map_le_length_mul {α : Type} (l : List α) (f : α → ℚ) (c : ℚ)
    (hf : ∀ x ∈ l, f x ≤ c) : (l.map f).sum ≤ (l.length : ℚ) * c := by
  induction l with
  | nil => simp
  | cons x rest ih =>
    simp only [List.map_cons, List.sum_cons, List.length_cons]
    have h1 := ih (fun y hy => hf y (List.mem_cons_of_mem x hy))
    have h2 := hf x (List.mem_cons_self x rest)
    have hcast : ((rest.length + 1 : ℕ) : ℚ) = (rest.length : ℚ) + 1 := by push_cast; ring
    rw [hcast]
    linarith

theorem sendOne_counters_nonneg (h pa eg d : Str) (tpp : ℚ) (st : SimState)
    (hU : NonnegVals st.remU) (hE : NonnegVals st.remE) :
    NonnegVals (sendOne h pa eg d tpp st).remU ∧ NonnegVals (sendOne h pa eg d tpp st).remE := by
  simp only [sendOne]
  split
  · exact ⟨updSub_nonneg hU (le_trans (min_le_right _ _) (min_le_left _ _)),
      updSub_nonneg hE (le_trans (min_le_right _ _) (min_le_right _ _))⟩
  · exact ⟨hU, hE⟩

theorem hostFlow_nonneg {pd : ProblemData} {st : SimState}
    (hV : EntriesValid pd st) (h : Str) : 0 ≤ hostFlow st.alloc h := by
  refine List.sum_nonneg ?_
  intro x hx
  rcases List.mem_map.mp hx with ⟨a, ha, rfl⟩
  by_cases hah : a.host = h
  · rw [if_pos hah]; exact le_of_lt (hV a ha).2
  · rw [if_neg hah]

/-! ### The claims -/

/-- C1: for every allocator (LP-based or heuristic) and every scenario it
accepts (non-negative declared capacities; the heuristics additionally
reject a zero total uplink, expressed by the `= some out` hypothesis), the
allocation produced satisfies the capacity invariant: every host's total
flow is within its uplink and every per-egress total flow (over paths mapped
to it) is within its capacity.  For the LP allocators the solver is
modelled by its contract (`CostLpOptimalSolution`,
`LatencyLpOptimalSolution`): the formulated constraints bound both the
full solution and the extracted (`> 1e-6`) allocation, with epsilon zero
in exact arithmetic. -/
theorem claim_C1_capacity_invariant (pd : ProblemData)
    (hU : NonnegVals pd.endhost_uplinks) (hE : NonnegVals pd.egress_capacities) :
    (∀ mode out, run_behavioral_sim pd mode = some out → CapacityOK pd out.finState.alloc) ∧
    (∀ mode useTransit out, run_behavioral_sim_r1 pd mode useTransit = some out →
      CapacityOK pd out.finState.alloc) ∧
    (∀ out, simulate_fair_share pd = some out → CapacityOK pd out.finState.alloc) ∧
    (∀ keys σ, (keys = xVarsKeysR3 pd ∨ keys = xVarsKeysCost pd) →
      CostLpOptimalSolution pd keys σ →
      (∀ h ∈ pd.endhosts, extractedHostSum keys σ h ≤ hostSum keys σ h ∧
        hostSum keys σ h ≤ getQ pd.endhost_uplinks h) ∧
      (∀ e ∈ pd.egress_interfaces, extractedEgSum pd keys σ e ≤ egSum pd keys σ e ∧
        egSum pd keys σ e ≤ getQ pd.egress_capacities e)) ∧
    (∀ σ, LatencyLpOptimalSolution pd (xVarsKeysR3 pd) σ →
      (∀ h ∈ pd.endhosts, hostSum (xVarsKeysR3 pd) σ h ≤ getQ pd.endhost_uplinks h) ∧
      (∀ e ∈ pd.egress_interfaces, egSum pd (xVarsKeysR3 pd) σ e ≤ getQ pd.egress_capacities e)) := by
  refine ⟨?_, ?_, ?_, ?_, ?_⟩
  · intro mode out hrun
    exact SimInv_capacityOK (run_behavioral_sim_inv pd mode out hU hE hrun)
  · intro mode useTransit out hrun
    exact SimInv_capacityOK (run_behavioral_sim_r1_inv pd mode useTransit out hU hE hrun)
  · intro out hrun
    exact SimInv_capacityOK (simulate_fair_share_inv pd out hU hE hrun)
  · intro keys σ _ hopt
    obtain ⟨hnn, _, hhost, hegr⟩ := hopt
    constructor
    · intro h hh
      refine ⟨?_, hhost h hh⟩
      rw [extractedHostSum, hostSum]
      exact if_sum_le keys σ _ _ hnn (fun k hk => hk.1)
    · intro e he
      refine ⟨?_, hegr e he⟩
      rw [extractedEgSum, egSum]
      exact if_sum_le keys σ _ _ hnn (fun k hk => hk.1)
  · intro σ hopt
    obtain ⟨_, _, hhost, hegr⟩ := hopt
    exact ⟨hhost, hegr⟩

theorem claim_C1_witness :
    NonnegVals pdSpec.endhost_uplinks ∧ NonnegVals pdSpec.egress_capacities ∧
    (∀ mode out, run_behavioral_sim pdSpec mode = some out →
      CapacityOK pdSpec out.finState.alloc) :=
  ⟨by decide, by decide,
    (claim_C1_capacity_invariant pdSpec (by decide) (by decide)).1⟩

/-- C3: whenever the cost LP reports an optimal solution (modelled by the
solver contract `CostLpOptimalSolution` over the variable keys built by
`solve_cost_lp` or `solve_adversarial_path_selection`), the flow summed
over all (host, path) pairs to each declared destination equals the
declared demand exactly; the extracted allocation (values above the `1e-6`
reporting cutoff) matches it within `|keys| * 1e-6`. -/
theorem claim_C3_demand_conservation (pd : ProblemData)
    (keys : List (Str × Str × Str)) (σ : Str × Str × Str → ℚ)
    (_hkeys : keys = xVarsKeysR3 pd ∨ keys = xVarsKeysCost pd)
    (hopt : CostLpOptimalSolution pd keys σ) (d : Str) (hd : d ∈ pd.destinations) :
    destSum keys σ d = getQ pd.traffic_per_destination d ∧
    extractedDestSum keys σ d ≤ destSum keys σ d ∧
    destSum keys σ d - extractedDestSum keys σ d ≤ (keys.length : ℚ) * (1 / 1000000) := by
  obtain ⟨hnn, hdem, _, _⟩ := hopt
  refine ⟨hdem d hd, ?_, ?_⟩
  · rw [extractedDestSum, destSum]
    exact if_sum_le keys σ _ _ hnn (fun k hk => hk.1)
  · rw [destSum, extractedDestSum, sum_map_sub]
    refine sum_map_le_length_mul keys _ _ ?_
    intro k _
    by_cases hkd : k.2.2 = d
    · rw [if_pos hkd]
      by_cases hbig : 1 / 1000000 < σ k
      · rw [if_pos ⟨hkd, hbig⟩]; norm_num
      · rw [if_neg (fun hc => hbig hc.2)]
        have := le_of_not_lt hbig
        linarith
    · rw [if_neg hkd, if_neg (fun hc => hkd hc.1)]
      norm_num

theorem claim_C3_witness :
    (xVarsKeysR3 pdSpec = xVarsKeysR3 pdSpec ∨ xVarsKeysR3 pdSpec = xVarsKeysCost pdSpec) ∧
    CostLpOptimalSolution pdSpec (xVarsKeysR3 pdSpec) sigmaSpec ∧
    "X" ∈ pdSpec.destinations ∧
    destSum (xVarsKeysR3 pdSpec) sigmaSpec "X" = getQ pdSpec.traffic_per_destination "X" := by
  have hkeys : xVarsKeysR3 pdSpec =
      [("h1", "pT1", "X"), ("h1", "pP1", "X"), ("h2", "pT2", "X"), ("h2", "pP2", "X")] := by
    decide
  have hσ1 : sigmaSpec ("h1", "pT1", "X") = 20 := by decide
  have hσ2 : sigmaSpec ("h1", "pP1", "X") = 10 := by decide
  have hσ3 : sigmaSpec ("h2", "pT2", "X") = 5 := by decide
  have hσ4 : sigmaSpec ("h2", "pP2", "X") = 5 := by decide
  have hopt : CostLpOptimalSolution pdSpec (xVarsKeysR3 pdSpec) sigmaSpec := by
    refine ⟨by decide, ?_, ?_, ?_⟩
    · intro d hd
      have hdX : d = "X" := by simpa [pdSpec] using hd
      subst hdX
      rw [hkeys]
      norm_num [destSum, hσ1, hσ2, hσ3, hσ4, getQ, aget, alookup, pdSpec]
    · intro h hh
      have hcase : h = "h1" ∨ h = "h2" := by simpa [pdSpec] using hh
      rw [hkeys]
      rcases hcase with rfl | rfl
      · norm_num [hostSum, hσ1, hσ2, hσ3, hσ4, getQ, aget, alookup, pdSpec,
          show ("h2":Str) ≠ "h1" from by decide]
      · norm_num [hostSum, hσ1, hσ2, hσ3, hσ4, getQ, aget, alookup, pdSpec,
          show ("h1":Str) ≠ "h2" from by decide]
    · intro e he
      have hcase : e = "eT" ∨ e = "eP" := by simpa [pdSpec] using he
      rw [hkeys]
      rcases hcase with rfl | rfl
      · norm_num [egSum, hσ1, hσ2, hσ3, hσ4, getQ, aget, alookup, pdSpec,
          show ("pP1":Str) ≠ "pT1" from by decide, show ("pP2":Str) ≠ "pT1" from by decide,
          show ("pT1":Str) ≠ "pP1" from by decide, show ("pT2":Str) ≠ "pP1" from by decide,
          show ("pT1":Str) ≠ "pT2" from by decide, show ("pP1":Str) ≠ "pT2" from by decide,
          show ("pT2":Str) ≠ "pP2" from by decide, show ("pP1":Str) ≠ "pP2" from by decide,
          show ("pT1":Str) ≠ "pP2" from by decide, show ("pP2":Str) ≠ "pT2" from by decide,
          show ("eP":Str) ≠ "eT" from by decide]
      · norm_num [egSum, hσ1, hσ2, hσ3, hσ4, getQ, aget, alookup, pdSpec,
          show ("pP1":Str) ≠ "pT1" from by decide, show ("pP2":Str) ≠ "pT1" from by decide,
          show ("pT1":Str) ≠ "pP1" from by decide, show ("pT2":Str) ≠ "pP1" from by decide,
          show ("pT1":Str) ≠ "pT2" from by decide, show ("pP1":Str) ≠ "pT2" from by decide,
          show ("pT2":Str) ≠ "pP2" from by decide, show ("pP1":Str) ≠ "pP2" from by decide,
          show ("pT1":Str) ≠ "pP2" from by decide, show ("pP2":Str) ≠ "pT2" from by decide,
          show ("eT":Str) ≠ "eP" from by decide]
  exact ⟨Or.inl rfl, hopt, by decide,
    (claim_C3_demand_conservation pdSpec (xVarsKeysR3 pdSpec) sigmaSpec
      (Or.inl rfl) hopt "X" (by decide)).1⟩

/-- C4: for every heuristic allocator run on a valid scenario (duplicate-free
host list, non-negative uplinks and demands) that it accepts, the reported
unsent traffic is exactly `total_demand - total_sent`, computed without any
clamping, and it is never negative. -/
theorem claim_C4_unsent_nonneg (pd : ProblemData) (hH : pd.endhosts.Nodup)
    (hU : NonnegVals pd.endhost_uplinks) (hT : NonnegVals pd.traffic_per_destination) :
    (∀ mode out, run_behavioral_sim pd mode = some out →
      out.totalUnsent = sumVals pd.traffic_per_destination - out.totalSent ∧
      0 ≤ out.totalUnsent) ∧
    (∀ mode useTransit out, run_behavioral_sim_r1 pd mode useTransit = some out →
      out.totalUnsent = sumVals pd.traffic_per_destination - out.totalSent ∧
      0 ≤ out.totalUnsent) ∧
    (∀ out, simulate_fair_share pd = some out →
      out.totalUnsent = sumVals pd.traffic_per_destination - out.totalSent ∧
      0 ≤ out.totalUnsent) :=
  ⟨fun mode out hrun => run_behavioral_sim_unsent pd mode out hH hU hT hrun,
   fun mode useTransit out hrun => run_behavioral_sim_r1_unsent pd mode useTransit out hH hU hT hrun,
   fun out hrun => simulate_fair_share_unsent pd out hH hU hT hrun⟩

theorem claim_C4_witness :
    pdSpec.endhosts.Nodup ∧ NonnegVals pdSpec.endhost_uplinks ∧
    NonnegVals pdSpec.traffic_per_destination ∧
    (∀ mode out, run_behavioral_sim pdSpec mode = some out →
      out.totalUnsent = sumVals pdSpec.traffic_per_destination - out.totalSent ∧
      0 ≤ out.totalUnsent) :=
  ⟨by decide, by decide, by decide,
    (claim_C4_unsent_nonneg pdSpec (by decide) (by decide) (by decide)).1⟩

/-- C9: throughout any heuristic run, the shared remaining-capacity
counters stay pointwise non-negative: the single send step (shared by all
allocators) preserves non-negativity because the sent amount is clamped by
`min` with both counters before being subtracted, and consequently the
final counters of every accepted run are non-negative. -/
theorem claim_C9_counters_nonneg (pd : ProblemData)
    (hU : NonnegVals pd.endhost_uplinks) (hE : NonnegVals pd.egress_capacities) :
    (∀ h pa eg d tpp st, NonnegVals st.remU → NonnegVals st.remE →
      NonnegVals (sendOne h pa eg d tpp st).remU ∧
      NonnegVals (sendOne h pa eg d tpp st).remE) ∧
    (∀ mode out, run_behavioral_sim pd mode = some out →
      NonnegVals out.finState.remU ∧ NonnegVals out.finState.remE) ∧
    (∀ mode useTransit out, run_behavioral_sim_r1 pd mode useTransit = some out →
      NonnegVals out.finState.remU ∧ NonnegVals out.finState.remE) ∧
    (∀ out, simulate_fair_share pd = some out →
      NonnegVals out.finState.remU ∧ NonnegVals out.finState.remE) := by
  refine ⟨fun h pa eg d tpp st hU' hE' => sendOne_counters_nonneg h pa eg d tpp st hU' hE',
    ?_, ?_, ?_⟩
  · intro mode out hrun
    obtain ⟨⟨h1, h2, _, _⟩, _⟩ := run_behavioral_sim_inv pd mode out hU hE hrun
    exact ⟨h1, h2⟩
  · intro mode useTransit out hrun
    obtain ⟨⟨h1, h2, _, _⟩, _⟩ := run_behavioral_sim_r1_inv pd mode useTransit out hU hE hrun
    exact ⟨h1, h2⟩
  · intro out hrun
    obtain ⟨⟨h1, h2, _, _⟩, _⟩ := simulate_fair_share_inv pd out hU hE hrun
    exact ⟨h1, h2⟩

theorem claim_C9_witness :
    NonnegVals pdSpec.endhost_uplinks ∧ NonnegVals pdSpec.egress_capacities ∧
    (∀ h pa eg d tpp st, NonnegVals st.remU → NonnegVals st.remE →
      NonnegVals (sendOne h pa eg d tpp st).remU ∧
      NonnegVals (sendOne h pa eg d tpp st).remE) :=
  ⟨by decide, by decide,
    (claim_C9_counters_nonneg pdSpec (by decide) (by decide)).1⟩

/-- C10: when the sum of all endhost uplinks is zero, every heuristic
allocator returns its error result (`None` / the error dict, modelled as
`none`) instead of producing an empty allocation; an individual
zero-uplink host in an otherwise accepted scenario is not an error and
simply carries zero flow. -/
theorem claim_C10_zero_total_uplink :
    (∀ pd : ProblemData, sumVals pd.endhost_uplinks = 0 →
      (∀ mode, run_behavioral_sim pd mode = none) ∧
      (∀ mode useTransit, run_behavioral_sim_r1 pd mode useTransit = none) ∧
      simulate_fair_share pd = none) ∧
    (∀ (pd : ProblemData) (mode : Mode) (out : SimOutput) (h : Str),
      NonnegVals pd.endhost_uplinks → NonnegVals pd.egress_capacities →
      run_behavioral_sim pd mode = some out →
      getQ pd.endhost_uplinks h = 0 → hostFlow out.finState.alloc h = 0) := by
  constructor
  · intro pd hz
    refine ⟨?_, ?_, ?_⟩
    · intro mode
      simp only [run_behavioral_sim]
      rw [if_pos hz]
    · intro mode useTransit
      simp only [run_behavioral_sim_r1]
      rw [if_pos hz]
    · simp only [simulate_fair_share]
      rw [if_pos hz]
  · intro pd mode out h hU hE hrun hzero
    obtain ⟨⟨h1, _, hhost, _⟩, hV⟩ := run_behavioral_sim_inv pd mode out hU hE hrun
    have hb := hhost h
    rw [hzero] at hb
    have hnn := hostFlow_nonneg hV h
    have hr := getQ_nonneg h1 h
    linarith

theorem claim_C10_witness :
    sumVals pdZeroUplink.endhost_uplinks = 0 ∧
    run_behavioral_sim pdZeroUplink Mode.fairShare = none ∧
    run_behavioral_sim pdZeroUplink Mode.thunderingHerd = none ∧
    run_behavioral_sim_r1 pdZeroUplink Mode.thunderingHerd true = none ∧
    simulate_fair_share pdZeroUplink = none := by
  have hz : sumVals pdZeroUplink.endhost_uplinks = 0 := by
    norm_num [sumVals, pdZeroUplink]
  obtain ⟨h1, h2, h3⟩ := claim_C10_zero_total_uplink.1 pdZeroUplink hz
  exact ⟨hz, h1 _, h1 _, h2 _ _, h3⟩

/-- C5 counterexample: on a scenario whose only destination is unreachable,
the round-3 `solve_cost_lp` (the isp_optimal/isp_pessimal driver the claim
cites) does not report an `lp_status` of `"No_Variables"` with cost 0 and
empty allocation — it returns the bare error dict carrying only the
no-valid-variables message. -/
theorem claim_C5_counterexample :
    solve_cost_lp pdNoVars "minimize"
      = R3LpOutcome.error "No valid variables for LP model could be created." ∧
    (solve_cost_lp pdNoVars "minimize").reportsNoVariablesStatus = false := by
  constructor
  · have hkeys : xVarsKeysR3 pdNoVars = [] := by decide
    rw [solve_cost_lp, if_pos hkeys]
  · have hkeys : xVarsKeysR3 pdNoVars = [] := by decide
    rw [solve_cost_lp, if_pos hkeys]
    rfl

/-- C5 (amended): when no (host, path, destination) triple exists,
`solve_adversarial_path_selection` (`lp_model_costs.py`) returns status
`"No_Variables"` with objective 0 and an empty allocation, while the
round-3 `solve_cost_lp` returns an error dict; neither invokes the
solver (no `solverInvoked` outcome). -/
theorem claim_C5_amended (pd : ProblemData)
    (hne : ¬(pd.endhosts = [] ∨ pd.egress_interfaces = [] ∨ pd.destinations = [] ∨
      pd.traffic_per_destination = []))
    (hadv : xVarsKeysCost pd = []) (hr3 : xVarsKeysR3 pd = []) :
    solve_adversarial_path_selection pd = AdvLpResult.noVariables "No_Variables" 0 [] ∧
    (∀ goal, solve_cost_lp pd goal
      = R3LpOutcome.error "No valid variables for LP model could be created.") ∧
    (∀ vars, solve_adversarial_path_selection pd ≠ AdvLpResult.solverInvoked vars) ∧
    (∀ goal vars, solve_cost_lp pd goal ≠ R3LpOutcome.solverInvoked vars) := by
  have hadveq : solve_adversarial_path_selection pd
      = AdvLpResult.noVariables "No_Variables" 0 [] := by
    rw [solve_adversarial_path_selection, if_neg hne, if_pos hadv]
  have hr3eq : ∀ goal, solve_cost_lp pd goal
      = R3LpOutcome.error "No valid variables for LP model could be created." := by
    intro goal
    rw [solve_cost_lp, if_pos hr3]
  refine ⟨hadveq, hr3eq, ?_, ?_⟩
  · intro vars hc
    rw [hadveq] at hc
    exact absurd hc (by simp)
  · intro goal vars hc
    rw [hr3eq goal] at hc
    exact absurd hc (by simp)

theorem claim_C5_witness :
    ¬(pdNoVars.endhosts = [] ∨ pdNoVars.egress_interfaces = [] ∨
      pdNoVars.destinations = [] ∨ pdNoVars.traffic_per_destination = []) ∧
    xVarsKeysCost pdNoVars = [] ∧ xVarsKeysR3 pdNoVars = [] ∧
    solve_adversarial_path_selection pdNoVars
      = AdvLpResult.noVariables "No_Variables" 0 [] :=
  ⟨by decide, by decide, by decide,
    (claim_C5_amended pdNoVars (by decide) (by decide) (by decide)).1⟩

set_option maxHeartbeats 2000000 in
/-- C2 counterexample: on the two-host scenario of the spec, the round-3 /
model_eval thundering-herd allocator (cited by the claim) sends only 30
units and leaves 10 unsent — it does not spill the remainder to the
transit path, so the claimed output (total sent 40) is wrong for it. -/
theorem claim_C2_counterexample :
    ((run_behavioral_sim pdSpec Mode.thunderingHerd).map (fun o => (o.totalSent, o.totalUnsent)))
      = some (30, 10) ∧
    ((run_behavioral_sim pdSpec Mode.thunderingHerd).map (fun o => o.totalSent)) ≠ some 40 := by
  have hrun : ((run_behavioral_sim pdSpec Mode.thunderingHerd).map
      (fun o => (o.totalSent, o.totalUnsent))) = some (30, 10) := by
    norm_num [run_behavioral_sim, hostDemandShare, processPairR3, possiblePaths, minByLat,
      sendOne, getQ, aget, alookup, updSub, sumVals, allocTotal, initState, pdSpec,
      latLtB, min_def, List.filterMap_cons, List.filterMap_nil,
      show ("h1":Str) ≠ "h2" from by decide, show ("h2":Str) ≠ "h1" from by decide,
      show ("pT1":Str) ≠ "pP1" from by decide, show ("pP1":Str) ≠ "pT1" from by decide,
      show ("pT1":Str) ≠ "pT2" from by decide, show ("pT1":Str) ≠ "pP2" from by decide,
      show ("pP1":Str) ≠ "pT2" from by decide, show ("pP1":Str) ≠ "pP2" from by decide,
      show ("pT2":Str) ≠ "pP2" from by decide, show ("pP2":Str) ≠ "pT2" from by decide,
      show ("pT2":Str) ≠ "pT1" from by decide, show ("pP2":Str) ≠ "pT1" from by decide,
      show ("pT2":Str) ≠ "pP1" from by decide, show ("pP2":Str) ≠ "pP1" from by decide,
      show ("eT":Str) ≠ "eP" from by decide, show ("eP":Str) ≠ "eT" from by decide,
      show ("eT":Str) ≠ "" from by decide, show ("eP":Str) ≠ "" from by decide]
  refine ⟨hrun, ?_⟩
  have h1 : (run_behavioral_sim pdSpec Mode.thunderingHerd).map (fun o => o.totalSent)
      = ((run_behavioral_sim pdSpec Mode.thunderingHerd).map
          (fun o => (o.totalSent, o.totalUnsent))).map Prod.fst := by
    cases run_behavioral_sim pdSpec Mode.thunderingHerd <;> rfl
  rw [h1, hrun]
  intro hc
  have h2 : (30 : ℚ) = 40 := Option.some.inj hc
  norm_num at h2

set_option maxHeartbeats 2000000 in
/-- C2 (amended): the round-1 thundering-herd allocator sorts each
candidates of each (host, destination) pair by ascending egress latency and
greedily fills them in that order against the shared remaining capacities
(`fillSorted`), and on the two-host scenario of the spec it places 30 units on
peering and 10 on transit with total sent 40 and unsent 0; the round-3 /
model_eval thundering-herd variant instead uses only the single
lowest-latency candidate with no spillover, sending 30 with 10 unsent and
nothing on transit on that same scenario. -/
theorem claim_C2_amended :
    ((run_behavioral_sim_r1 pdSpec Mode.thunderingHerd true).map
        (fun o => (egFlowMap pdSpec o.finState.alloc "eP",
          egFlowMap pdSpec o.finState.alloc "eT", o.totalSent, o.totalUnsent)))
      = some (30, 10, 40, 0) ∧
    ((run_behavioral_sim pdSpec Mode.thunderingHerd).map
        (fun o => (egFlowMap pdSpec o.finState.alloc "eT", o.totalSent, o.totalUnsent)))
      = some (0, 30, 10) ∧
    (∀ (pd : ProblemData) (h d : Str) (dem : ℚ) (st : SimState),
      processPairR1 pd true Mode.thunderingHerd h d dem st
        = (match possiblePathsR1 pd true h d with
           | [] => st
           | p0 :: rest => fillSorted h d (sortByLat (p0 :: rest)) dem st)) ∧
    (∀ (pd : ProblemData) (h d : Str) (dem : ℚ) (st : SimState),
      processPairR3 pd Mode.thunderingHerd h d dem st
        = (match possiblePaths pd h d with
           | [] => st
           | p0 :: rest => sendOne h (minByLat p0 rest).path (minByLat p0 rest).egress d
               (dem / ((1 : ℕ) : ℚ)) st)) := by
  refine ⟨?_, ?_, ?_, ?_⟩
  · norm_num [run_behavioral_sim_r1, hostDemandShare, processPairR1, possiblePathsR1,
      fillSorted, sortByLat, orderedInsertLat, latLeB,
      sendOne, getQ, aget, alookup, updSub, sumVals, allocTotal, egFlowMap, initState, pdSpec,
      min_def, List.filterMap_cons, List.filterMap_nil,
      show ("h1":Str) ≠ "h2" from by decide, show ("h2":Str) ≠ "h1" from by decide,
      show ("pT1":Str) ≠ "pP1" from by decide, show ("pP1":Str) ≠ "pT1" from by decide,
      show ("pT1":Str) ≠ "pT2" from by decide, show ("pT1":Str) ≠ "pP2" from by decide,
      show ("pP1":Str) ≠ "pT2" from by decide, show ("pP1":Str) ≠ "pP2" from by decide,
      show ("pT2":Str) ≠ "pP2" from by decide, show ("pP2":Str) ≠ "pT2" from by decide,
      show ("pT2":Str) ≠ "pT1" from by decide, show ("pP2":Str) ≠ "pT1" from by decide,
      show ("pT2":Str) ≠ "pP1" from by decide, show ("pP2":Str) ≠ "pP1" from by decide,
      show ("eT":Str) ≠ "eP" from by decide, show ("eP":Str) ≠ "eT" from by decide,
      show ("eT":Str) ≠ "" from by decide, show ("eP":Str) ≠ "" from by decide]
  · norm_num [run_behavioral_sim, hostDemandShare, processPairR3, possiblePaths, minByLat,
      sendOne, getQ, aget, alookup, updSub, sumVals, allocTotal, egFlowMap, initState, pdSpec,
      latLtB, min_def, List.filterMap_cons, List.filterMap_nil,
      show ("h1":Str) ≠ "h2" from by decide, show ("h2":Str) ≠ "h1" from by decide,
      show ("pT1":Str) ≠ "pP1" from by decide, show ("pP1":Str) ≠ "pT1" from by decide,
      show ("pT1":Str) ≠ "pT2" from by decide, show ("pT1":Str) ≠ "pP2" from by decide,
      show ("pP1":Str) ≠ "pT2" from by decide, show ("pP1":Str) ≠ "pP2" from by decide,
      show ("pT2":Str) ≠ "pP2" from by decide, show ("pP2":Str) ≠ "pT2" from by decide,
      show ("pT2":Str) ≠ "pT1" from by decide, show ("pP2":Str) ≠ "pT1" from by decide,
      show ("pT2":Str) ≠ "pP1" from by decide, show ("pP2":Str) ≠ "pP1" from by decide,
      show ("eT":Str) ≠ "eP" from by decide, show ("eP":Str) ≠ "eT" from by decide,
      show ("eT":Str) ≠ "" from by decide, show ("eP":Str) ≠ "" from by decide]
  · intro pd h d dem st
    rcases hpp : possiblePathsR1 pd true h d with _ | ⟨p0, rest⟩ <;>
      simp only [processPairR1, hpp]
  · intro pd h d dem st
    rcases hpp : possiblePaths pd h d with _ | ⟨p0, rest⟩ <;>
      simp only [processPairR3, hpp]
    simp [List.foldl_cons, List.foldl_nil]

set_option maxHeartbeats 2000000 in
/-- C6 counterexample: on a scenario with four candidate paths of distinct
latencies (e1 lowest … e4 highest) and ample capacity, both cited
fair-share implementations place positive flow (20 units) on the paths
through e3 and e4 — the candidates outside the two or three lowest-latency
sets — so no selection of the N lowest-latency candidates with the practical
N of the spec (2 or 3) describes them: they use every candidate path. -/
theorem claim_C6_counterexample :
    ((run_behavioral_sim pdFour Mode.fairShare).map
        (fun o => (egFlowMap pdFour o.finState.alloc "e3",
          egFlowMap pdFour o.finState.alloc "e4"))) = some (20, 20) ∧
    ((simulate_fair_share pdFour).map
        (fun o => egFlowMap pdFour o.finState.alloc "e4")) = some 20 ∧
    ((run_behavioral_sim pdFour Mode.fairShare).map
        (fun o => egFlowMap pdFour o.finState.alloc "e4")) ≠ some 0 := by
  have hrun : ((run_behavioral_sim pdFour Mode.fairShare).map
      (fun o => (egFlowMap pdFour o.finState.alloc "e3",
        egFlowMap pdFour o.finState.alloc "e4"))) = some (20, 20) := by
    norm_num [run_behavioral_sim, hostDemandShare, processPairR3, possiblePaths,
      sendOne, getQ, aget, alookup, updSub, sumVals, allocTotal, egFlowMap, initState, pdFour,
      min_def, List.filterMap_cons, List.filterMap_nil,
      show ("p1":Str) ≠ "p2" from by decide, show ("p1":Str) ≠ "p3" from by decide,
      show ("p1":Str) ≠ "p4" from by decide, show ("p2":Str) ≠ "p1" from by decide,
      show ("p2":Str) ≠ "p3" from by decide, show ("p2":Str) ≠ "p4" from by decide,
      show ("p3":Str) ≠ "p1" from by decide, show ("p3":Str) ≠ "p2" from by decide,
      show ("p3":Str) ≠ "p4" from by decide, show ("p4":Str) ≠ "p1" from by decide,
      show ("p4":Str) ≠ "p2" from by decide, show ("p4":Str) ≠ "p3" from by decide,
      show ("e1":Str) ≠ "e2" from by decide, show ("e1":Str) ≠ "e3" from by decide,
      show ("e1":Str) ≠ "e4" from by decide, show ("e2":Str) ≠ "e1" from by decide,
      show ("e2":Str) ≠ "e3" from by decide, show ("e2":Str) ≠ "e4" from by decide,
      show ("e3":Str) ≠ "e1" from by decide, show ("e3":Str) ≠ "e2" from by decide,
      show ("e3":Str) ≠ "e4" from by decide, show ("e4":Str) ≠ "e1" from by decide,
      show ("e4":Str) ≠ "e2" from by decide, show ("e4":Str) ≠ "e3" from by decide,
      show ("e1":Str) ≠ "" from by decide, show ("e2":Str) ≠ "" from by decide,
      show ("e3":Str) ≠ "" from by decide, show ("e4":Str) ≠ "" from by decide]
  have hfs : ((simulate_fair_share pdFour).map
      (fun o => egFlowMap pdFour o.finState.alloc "e4")) = some 20 := by
    norm_num [simulate_fair_share, hostDemandShare, processPairFs, availablePathsFs,
      sendOne, getQ, aget, alookup, updSub, sumVals, allocTotal, egFlowMap, initState, pdFour,
      min_def, List.filterMap_cons, List.filterMap_nil,
      show ("p1":Str) ≠ "p2" from by decide, show ("p1":Str) ≠ "p3" from by decide,
      show ("p1":Str) ≠ "p4" from by decide, show ("p2":Str) ≠ "p1" from by decide,
      show ("p2":Str) ≠ "p3" from by decide, show ("p2":Str) ≠ "p4" from by decide,
      show ("p3":Str) ≠ "p1" from by decide, show ("p3":Str) ≠ "p2" from by decide,
      show ("p3":Str) ≠ "p4" from by decide, show ("p4":Str) ≠ "p1" from by decide,
      show ("p4":Str) ≠ "p2" from by decide, show ("p4":Str) ≠ "p3" from by decide,
      show ("e1":Str) ≠ "e2" from by decide, show ("e1":Str) ≠ "e3" from by decide,
      show ("e1":Str) ≠ "e4" from by decide, show ("e2":Str) ≠ "e1" from by decide,
      show ("e2":Str) ≠ "e3" from by decide, show ("e2":Str) ≠ "e4" from by decide,
      show ("e3":Str) ≠ "e1" from by decide, show ("e3":Str) ≠ "e2" from by decide,
      show ("e3":Str) ≠ "e4" from by decide, show ("e4":Str) ≠ "e1" from by decide,
      show ("e4":Str) ≠ "e2" from by decide, show ("e4":Str) ≠ "e3" from by decide,
      show ("e1":Str) ≠ "" from by decide, show ("e2":Str) ≠ "" from by decide,
      show ("e3":Str) ≠ "" from by decide, show ("e4":Str) ≠ "" from by decide]
  refine ⟨hrun, hfs, ?_⟩
  have h1 : (run_behavioral_sim pdFour Mode.fairShare).map
      (fun o => egFlowMap pdFour o.finState.alloc "e4")
      = ((run_behavioral_sim pdFour Mode.fairShare).map
          (fun o => (egFlowMap pdFour o.finState.alloc "e3",
            egFlowMap pdFour o.finState.alloc "e4"))).map Prod.snd := by
    cases run_behavioral_sim pdFour Mode.fairShare <;> rfl
  rw [h1, hrun]
  intro hc
  have h2 : (20 : ℚ) = 0 := Option.some.inj hc
  norm_num at h2

set_option maxHeartbeats 2000000 in
/-- C6 (amended): the fair-share allocators split the demand of each destination
across hosts proportionally to uplink share
(`hostDemandShare = demand * uplink/total`), then for every
(host, destination) pair use ALL candidate paths (no selection of N
lowest-latency candidates exists in either cited implementation), send
`min(host_demand/num_paths, remaining uplink, remaining egress capacity)`
on each, and never redistribute a path's shortfall within the step (each
send is bounded by the fixed even share, as the `sendOne` characterization
states); on the four-path scenario every candidate, including the two
highest-latency ones, carries 20 units. -/
theorem claim_C6_amended :
    (∀ (pd : ProblemData) (tot : ℚ) (h : Str) (dem : ℚ),
      hostDemandShare pd tot h dem = dem * (getQ pd.endhost_uplinks h / tot)) ∧
    (∀ (pd : ProblemData) (h d : Str) (dem : ℚ) (st : SimState),
      processPairFs pd h d dem st
        = (match availablePathsFs pd h d with
           | [] => st
           | p0 :: rest => (p0 :: rest).foldl
               (fun s pe => sendOne h pe.1 pe.2 d (dem / (((p0 :: rest).length : ℕ) : ℚ)) s) st)) ∧
    (∀ (pd : ProblemData) (h d : Str) (dem : ℚ) (st : SimState),
      processPairR3 pd Mode.fairShare h d dem st
        = (match possiblePaths pd h d with
           | [] => st
           | p0 :: rest => (p0 :: rest).foldl
               (fun s q => sendOne h q.path q.egress d (dem / (((p0 :: rest).length : ℕ) : ℚ)) s) st)) ∧
    (∀ (h pa eg d : Str) (tpp : ℚ) (st : SimState),
      sendOne h pa eg d tpp st = st ∨
      ∃ s, 0 < s ∧ s ≤ tpp ∧ s ≤ getQ st.remU h ∧ s ≤ getQ st.remE eg ∧
        sendOne h pa eg d tpp st =
          { remU := updSub st.remU h s, remE := updSub st.remE eg s,
            alloc := st.alloc ++ [⟨h, pa, eg, d, s⟩] }) ∧
    ((run_behavioral_sim pdFour Mode.fairShare).map
        (fun o => o.finState.alloc.map (fun a => (a.path, a.amount))))
      = some [("p1", 20), ("p2", 20), ("p3", 20), ("p4", 20)] := by
  refine ⟨fun pd tot h dem => rfl, ?_, ?_, ?_, ?_⟩
  · intro pd h d dem st
    rcases hpp : availablePathsFs pd h d with _ | ⟨p0, rest⟩ <;>
      simp only [processPairFs, hpp]
  · intro pd h d dem st
    rcases hpp : possiblePaths pd h d with _ | ⟨p0, rest⟩ <;>
      simp only [processPairR3, hpp]
  · intro h pa eg d tpp st
    simp only [sendOne]
    by_cases hpos : 0 < min tpp (min (getQ st.remU h) (getQ st.remE eg))
    · right
      refine ⟨min tpp (min (getQ st.remU h) (getQ st.remE eg)), hpos,
        min_le_left _ _,
        le_trans (min_le_right _ _) (min_le_left _ _),
        le_trans (min_le_right _ _) (min_le_right _ _), ?_⟩
      rw [if_pos hpos]
    · left
      rw [if_neg hpos]
  · norm_num [run_behavioral_sim, hostDemandShare, processPairR3, possiblePaths,
      sendOne, getQ, aget, alookup, updSub, sumVals, allocTotal, initState, pdFour,
      min_def, List.filterMap_cons, List.filterMap_nil,
      show ("p1":Str) ≠ "p2" from by decide, show ("p1":Str) ≠ "p3" from by decide,
      show ("p1":Str) ≠ "p4" from by decide, show ("p2":Str) ≠ "p1" from by decide,
      show ("p2":Str) ≠ "p3" from by decide, show ("p2":Str) ≠ "p4" from by decide,
      show ("p3":Str) ≠ "p1" from by decide, show ("p3":Str) ≠ "p2" from by decide,
      show ("p3":Str) ≠ "p4" from by decide, show ("p4":Str) ≠ "p1" from by decide,
      show ("p4":Str) ≠ "p2" from by decide, show ("p4":Str) ≠ "p3" from by decide,
      show ("e1":Str) ≠ "e2" from by decide, show ("e1":Str) ≠ "e3" from by decide,
      show ("e1":Str) ≠ "e4" from by decide, show ("e2":Str) ≠ "e1" from by decide,
      show ("e2":Str) ≠ "e3" from by decide, show ("e2":Str) ≠ "e4" from by decide,
      show ("e3":Str) ≠ "e1" from by decide, show ("e3":Str) ≠ "e2" from by decide,
      show ("e3":Str) ≠ "e4" from by decide, show ("e4":Str) ≠ "e1" from by decide,
      show ("e4":Str) ≠ "e2" from by decide, show ("e4":Str) ≠ "e3" from by decide,
      show ("e1":Str) ≠ "" from by decide, show ("e2":Str) ≠ "" from by decide,
      show ("e3":Str) ≠ "" from by decide, show ("e4":Str) ≠ "" from by decide]

/-- C7 counterexample: the triple (host "h", path "to", destination "d")
satisfies every hypothesis of the claim — the host has no underscore and
no component contains the substring `_to_` — yet the encoded key
"h_to_to_d" contains an earlier `_to_` occurrence spanning the
host/path separator, so the parser fails to recover the triple (it finds
no underscore in the part before the first `_to_`, the situation in which
`performance_analyzer.py` warns and skips and round 3 raises). -/
theorem claim_C7_counterexample :
    ('_' ∉ "h".data) ∧
    containsSeq sepToList "h".data = false ∧
    containsSeq sepToList "to".data = false ∧
    containsSeq sepToList "d".data = false ∧
    parseKey (encodeKey "h".data "to".data "d".data) = none ∧
    parseKey (encodeKey "h".data "to".data "d".data)
      ≠ some ("h".data, "to".data, "d".data) :=
  ⟨by decide, by decide, by decide, by decide, by decide, by decide⟩

/-- C7 (amended): encoding a (host, path, destination) triple as
`host_path_to_destination` and parsing it back (split at the first `_to_`
occurrence, then at the first underscore of the prefix) recovers the
triple for every triple in which the host contains no underscore, no
component contains `_to_`, and additionally the path does not recreate an
earlier `_to_` occurrence at the separator boundaries (`SepClean`: the
path does not begin with "to_", is not the two letters "to", and does not
end with "_to"). -/
theorem claim_C7_amended (host p d : List Char) (hh : '_' ∉ host)
    (_hhc : containsSeq sepToList host = false)
    (_hpc : containsSeq sepToList p = false)
    (hclean : SepClean p)
    (hd : containsSeq sepToList d = false) :
    parseKey (encodeKey host p d) = some (host, p, d) :=
  parseKey_encodeKey host p d hh hclean hd

theorem claim_C7_witness :
    ('_' ∉ "h1".data) ∧ containsSeq sepToList "h1".data = false ∧
    containsSeq sepToList "p_h1_e2".data = false ∧ SepClean "p_h1_e2".data ∧
    containsSeq sepToList "D_Peer_e2".data = false ∧
    parseKey (encodeKey "h1".data "p_h1_e2".data "D_Peer_e2".data)
      = some ("h1".data, "p_h1_e2".data, "D_Peer_e2".data) :=
  ⟨by decide, by decide, by decide, by decide, by decide,
    claim_C7_amended "h1".data "p_h1_e2".data "D_Peer_e2".data
      (by decide) (by decide) (by decide) (by decide) (by decide)⟩

/-- C8: for every scenario and every allocation the analyzer accepts, the
reported egress utilization entry for each declared egress capacity is
exactly the aggregated traffic, the capacity, and
`utilization_percent = 100 * traffic / capacity` guarded by the
`capacity > 0` test, which returns 0 when the capacity is 0 instead of
dividing by zero. -/
theorem claim_C8_utilization (pd : ProblemData) (alloc : List (Str × ℚ))
    (ms : List (Str × UtilEntry)) (e : Str) (c : ℚ)
    (hres : analyze_performance_of_result pd alloc = some ms)
    (hmem : (e, c) ∈ pd.egress_capacities) :
    (∃ tA, trafficAgg pd alloc = some tA ∧
      (e, { traffic := getQ tA e, capacity := c,
            utilization_percent := utilizationPercent (getQ tA e) c }) ∈ ms) ∧
    (∀ t cap, 0 < cap → utilizationPercent t cap = t / cap * 100) ∧
    (∀ t, utilizationPercent t 0 = 0) := by
  refine ⟨?_, ?_, ?_⟩
  · rw [analyze_performance_of_result] at hres
    rcases hagg : trafficAgg pd alloc with _ | tA
    · rw [hagg] at hres
      exact absurd hres (by simp)
    · rw [hagg] at hres
      refine ⟨tA, rfl, ?_⟩
      have hms := Option.some.inj hres
      rw [← hms]
      exact List.mem_map.mpr ⟨(e, c), hmem, rfl⟩
  · intro t cap hc
    rw [utilizationPercent, if_pos hc]
  · intro t
    rw [utilizationPercent, if_neg (lt_irrefl 0)]

theorem claim_C8_witness :
    analyze_performance_of_result pdSpec [("h1_pT1_to_X", 25)]
      = some [("eT", ⟨25, 50, 50⟩), ("eP", ⟨0, 30, 0⟩)] ∧
    ("eT", (50:ℚ)) ∈ pdSpec.egress_capacities ∧
    (∃ tA, trafficAgg pdSpec [("h1_pT1_to_X", 25)] = some tA ∧
      ("eT", (⟨getQ tA "eT", 50, utilizationPercent (getQ tA "eT") 50⟩ : UtilEntry))
          ∈ [("eT", (⟨25, 50, 50⟩ : UtilEntry)), ("eP", ⟨0, 30, 0⟩)]) := by
  have hagg : trafficAgg pdSpec [("h1_pT1_to_X", 25)] = some [("eT", 25)] := by decide
  have hq1 : getQ [("eT", (25:ℚ))] "eT" = 25 := by decide
  have hq2 : getQ [("eT", (25:ℚ))] "eP" = 0 := by decide
  have hres : analyze_performance_of_result pdSpec [("h1_pT1_to_X", 25)]
      = some [("eT", ⟨25, 50, 50⟩), ("eP", ⟨0, 30, 0⟩)] := by
    rw [analyze_performance_of_result, hagg]
    norm_num [pdSpec, hq1, hq2, utilizationPercent]
  refine ⟨hres, by decide, ?_⟩
  exact ((claim_C8_utilization pdSpec [("h1_pT1_to_X", 25)]
    [("eT", ⟨25, 50, 50⟩), ("eP", ⟨0, 30, 0⟩)] "eT" 50 hres (by decide)).1)
